import Mathlib

/-!
Verification of the refyne-sdk-go client library against its specification.

The Go source is shallowly embedded: pure Go functions become Lean functions,
`time.Time` values are passed explicitly as Unix-epoch integers, Go maps are
modelled as association lists with no-duplicate keys, and the HTTP transport /
JSON codec collaborators are modelled as explicit function parameters
(oracles).

Go machine integers are modelled as `Int`.  Two-sided boundary: Unix-epoch
second arithmetic (`expiresAt`, stale deadlines) is taken unbounded, since
every timestamp the library manipulates sits far below `2^63`; the retry
loop's duration arithmetic, by contrast, is modelled with explicit
two's-complement wrapping (`int64` below), because there the spec's own
formulas — the `1 << (attempt-1)` shift and the `time.Duration`
nanosecond multiplications — are what overflow, at attempt counts and
Retry-After values the caller controls.
-/

namespace Refyne

/-! ### Go primitives -/

/-- Two's-complement wrap to a signed 64-bit integer, modelling Go `int` /
`int64` arithmetic results. -/
def int64 (n : Int) : Int :=
  (n + 2 ^ 63) % 2 ^ 64 - 2 ^ 63

/-- `strconv.Atoi`: optional sign, then decimal digits; `none` models a
non-nil error (syntax error or 64-bit range overflow). -/
def goAtoi (s : String) : Option Int :=
  match s.data with
  | [] => none
  | c :: rest =>
    let (neg, digits) :=
      if c = '-' then (true, rest)
      else if c = '+' then (false, rest)
      else (false, c :: rest)
    if digits = [] then none
    else if digits.all Char.isDigit then
      let n : Nat := digits.foldl (fun acc d => acc * 10 + (d.toNat - 48)) 0
      let v : Int := if neg then -(n : Int) else (n : Int)
      if -(2 ^ 63) ≤ v ∧ v ≤ 2 ^ 63 - 1 then some v else none
    else none

/-- The value component of `strconv.Atoi` on an all-digit string when the
caller ignores the error: on 64-bit range overflow `Atoi` returns the clamped
maximum magnitude (`math.MaxInt64` for a nonnegative input). -/
def goAtoiDigitsClamped (digits : List Char) : Int :=
  let n : Nat := digits.foldl (fun acc d => acc * 10 + (d.toNat - 48)) 0
  if (n : Int) ≤ 2 ^ 63 - 1 then (n : Int) else 2 ^ 63 - 1

/-- `strings.ToLower` restricted to ASCII (all directive and version syntax in
this library is ASCII, so the Unicode cases are never distinguished here). -/
def goToLower (s : String) : String :=
  ⟨s.data.map Char.toLower⟩

/-- `strings.TrimSpace`: drop leading and trailing whitespace. -/
def goTrimSpace (s : String) : String :=
  ⟨((s.data.dropWhile Char.isWhitespace).reverse.dropWhile Char.isWhitespace).reverse⟩

/-- Split a character list at every occurrence of `sep`
(the semantics of Go `strings.Split` with a single-character separator). -/
def splitOnChar (sep : Char) : List Char → List (List Char)
  | [] => [[]]
  | c :: rest =>
    match splitOnChar sep rest with
    | [] => if c = sep then [[], []] else [[c]]
    | h :: t => if c = sep then [] :: h :: t else (c :: h) :: t

/-- `strings.Split(s, sep)` for a single-character separator. -/
def goSplit (s : String) (sep : Char) : List String :=
  (splitOnChar sep s.data).map String.mk

/-- `strings.HasPrefix` (pattern first argument here is the searched string). -/
def goStartsWithAux : List Char → List Char → Bool
  | [], _ => true
  | _ :: _, [] => false
  | p :: ps, c :: cs => p = c && goStartsWithAux ps cs

/-- `strings.HasPrefix(s, pat)`. -/
def goStartsWith (s pat : String) : Bool :=
  goStartsWithAux pat.data s.data

/-- Go string slicing `s[n:]` (all sliced strings here are ASCII, so byte and
character indices agree). -/
def goDrop (s : String) (n : Nat) : String :=
  ⟨s.data.drop n⟩

/-! ### Cache-Control parser (`ParseCacheControl`) -/

/-- `CacheControlDirectives` from `interfaces.go`. Go `*int` fields are
modelled as `Option Int`. -/
structure CacheControlDirectives where
  NoStore : Bool := false
  NoCache : Bool := false
  Private : Bool := false
  MaxAge : Option Int := none
  StaleWhileRevalidate : Option Int := none
deriving DecidableEq, Repr

/-- Classification of one already-trimmed, already-lowercased token, mirroring
the `switch` in `ParseCacheControl`. -/
inductive Directive where
  | noStore
  | noCache
  | priv
  | maxAge (v : Int)
  | staleWhileRevalidate (v : Int)
  | ignored
deriving DecidableEq, Repr

/-- The `switch` of `ParseCacheControl` on a trimmed token: which directive (if
any) the token sets.  A recognized key with a non-integer value and an unknown
token both fall through to `ignored`. -/
def classifyDirective (part : String) : Directive :=
  if part = "no-store" then .noStore
  else if part = "no-cache" then .noCache
  else if part = "private" then .priv
  else if goStartsWith part "max-age=" then
    match goAtoi (goDrop part 8) with
    | some v => .maxAge v
    | none => .ignored
  else if goStartsWith part "stale-while-revalidate=" then
    match goAtoi (goDrop part 23) with
    | some v => .staleWhileRevalidate v
    | none => .ignored
  else .ignored

/-- Apply one classified directive to the accumulated record. -/
def applyClassified (d : CacheControlDirectives) : Directive → CacheControlDirectives
  | .noStore => { d with NoStore := true }
  | .noCache => { d with NoCache := true }
  | .priv => { d with Private := true }
  | .maxAge v => { d with MaxAge := some v }
  | .staleWhileRevalidate v => { d with StaleWhileRevalidate := some v }
  | .ignored => d

/-- One iteration of the `for` loop in `ParseCacheControl`:
`part = strings.TrimSpace(part)` followed by the `switch`. -/
def applyDirective (d : CacheControlDirectives) (part : String) : CacheControlDirectives :=
  applyClassified d (classifyDirective (goTrimSpace part))

/-- `ParseCacheControl` from the cache source file: lowercase the header,
split on commas, and fold every token into the directive record. -/
def ParseCacheControl (header : String) : CacheControlDirectives :=
  if header = "" then {}
  else (goSplit (goToLower header) ',').foldl applyDirective {}

example : ParseCacheControl "" = {} := by decide
example : ParseCacheControl "no-store" = { NoStore := true } := by decide
example : ParseCacheControl "private, max-age=3600, stale-while-revalidate=60" =
    { Private := true, MaxAge := some 3600, StaleWhileRevalidate := some 60 } := by decide
example : ParseCacheControl "MAX-AGE=5" = { MaxAge := some 5 } := by decide
example : ParseCacheControl "max-age=oops, bogus" = {} := by decide

/-! ### Cache entries and the in-memory cache -/

/-- `CacheEntry` from `interfaces.go`; the opaque `Value any` payload is a type
parameter, and `ExpiresAt` is an absolute Unix-epoch second. -/
structure CacheEntry (α : Type) where
  Value : α
  ExpiresAt : Int
  CacheControl : CacheControlDirectives := {}
deriving DecidableEq, Repr

/-- `CreateCacheEntry`; `time.Now().Unix()` is passed in as `now`.  `none`
models the `nil` "do not cache" result. -/
def CreateCacheEntry (value : α) (cacheControlHeader : String) (now : Int) :
    Option (CacheEntry α) :=
  let cc := ParseCacheControl cacheControlHeader
  if cc.NoStore then none
  else
    match cc.MaxAge with
    | none => none
    | some maxAge => some { Value := value, ExpiresAt := now + maxAge, CacheControl := cc }

/-- Go map lookup on the association-list model of `map[string]*CacheEntry`. -/
def mapGet (m : List (String × β)) (k : String) : Option β :=
  (m.find? (fun p => p.1 = k)).map (fun p => p.2)

/-- Go map insertion: replace in place if the key is present, else append. -/
def mapInsert (m : List (String × β)) (k : String) (v : β) : List (String × β) :=
  match m with
  | [] => [(k, v)]
  | p :: rest => if p.1 = k then (k, v) :: rest else p :: mapInsert rest k v

/-- Go `delete(m, k)` (on a no-duplicate-keys list this removes the one
binding of `k`). -/
def mapDelete (m : List (String × β)) (k : String) : List (String × β) :=
  m.filter (fun p => p.1 ≠ k)

/-- `MemoryCache` from the cache source file (the mutex is irrelevant in this
sequential model). -/
structure MemoryCache (α : Type) where
  store : List (String × CacheEntry α)
  order : List String
  maxEntries : Int
deriving DecidableEq, Repr

/-- `NewMemoryCache`. -/
def NewMemoryCache (α : Type) (maxEntries : Int) : MemoryCache α :=
  { store := [], order := [], maxEntries := maxEntries }

/-- The `for len(c.store) >= c.maxEntries && len(c.order) > 0` eviction loop
inside `MemoryCache.Set`, recursing on the order list it consumes. -/
def evictLoop (store : List (String × CacheEntry α)) (order : List String)
    (maxEntries : Int) : List (String × CacheEntry α) × List String :=
  match order with
  | [] => (store, [])
  | oldest :: rest =>
    if maxEntries ≤ (store.length : Int) then
      evictLoop (mapDelete store oldest) rest maxEntries
    else (store, oldest :: rest)

/-- `MemoryCache.Set`. -/
def MemoryCache.Set (c : MemoryCache α) (key : String) (entry : CacheEntry α) :
    MemoryCache α :=
  if entry.CacheControl.NoStore then c
  else
    let (store, order) := evictLoop c.store c.order c.maxEntries
    let order := if (mapGet store key).isSome then order else order ++ [key]
    { c with store := mapInsert store key entry, order := order }

/-- The `append(order[:i], order[i+1:]...)` step of `MemoryCache.Delete`:
remove the first occurrence of `key` (the loop breaks after one removal). -/
def removeFirst (order : List String) (key : String) : List String :=
  match order with
  | [] => []
  | k :: rest => if k = key then rest else k :: removeFirst rest key

/-- `MemoryCache.Delete`. -/
def MemoryCache.Delete (c : MemoryCache α) (key : String) : MemoryCache α :=
  { c with store := mapDelete c.store key, order := removeFirst c.order key }

/-- `MemoryCache.Get`; `time.Now().Unix()` is passed in as `now`, and the
possibly-mutated cache (lazy expiry deletes the key) is returned alongside the
lookup result. -/
def MemoryCache.Get (c : MemoryCache α) (key : String) (now : Int) :
    Option (CacheEntry α) × MemoryCache α :=
  match mapGet c.store key with
  | none => (none, c)
  | some entry =>
    if entry.ExpiresAt < now then
      match entry.CacheControl.StaleWhileRevalidate with
      | some swr =>
        if now < entry.ExpiresAt + swr then (some entry, c)
        else (none, c.Delete key)
      | none => (none, c.Delete key)
    else (some entry, c)

/-- `MemoryCache.Clear`. -/
def MemoryCache.Clear (c : MemoryCache α) : MemoryCache α :=
  { c with store := [], order := [] }

/-- `MemoryCache.Size`. -/
def MemoryCache.Size (c : MemoryCache α) : Int :=
  c.store.length

/-! ### Version parsing and the API-version compatibility check (`version.go`) -/

/-- A match of the anchored RE2 version pattern from `version.go`, written out
by hand: three nonempty digit groups separated by literal dots, optionally
followed by `-` and a nonempty pre-release suffix; the `.` of RE2 cannot match
a newline, and greedy digit runs never backtrack before a non-digit. -/
def parseVersionMatch (cs : List Char) : Option (List Char × List Char × List Char × String) :=
  let d1 := cs.takeWhile Char.isDigit
  let r1 := cs.dropWhile Char.isDigit
  if d1 = [] then none
  else
    match r1 with
    | '.' :: r2 =>
      let d2 := r2.takeWhile Char.isDigit
      let r3 := r2.dropWhile Char.isDigit
      if d2 = [] then none
      else
        match r3 with
        | '.' :: r4 =>
          let d3 := r4.takeWhile Char.isDigit
          let r5 := r4.dropWhile Char.isDigit
          if d3 = [] then none
          else
            match r5 with
            | [] => some (d1, d2, d3, "")
            | '-' :: pre =>
              if pre ≠ [] ∧ pre.all (fun c => c ≠ '\n') then some (d1, d2, d3, ⟨pre⟩)
              else none
            | _ => none
        | _ => none
    | _ => none

/-- `ParseVersion`: on regex failure all components are `0`; on success each
component is `strconv.Atoi` of a digit group with the error discarded (so a
group beyond `math.MaxInt64` is clamped, as `Atoi` returns the clamped value
alongside the ignored range error). -/
def ParseVersion (version : String) : Int × Int × Int × String :=
  match parseVersionMatch version.data with
  | none => (0, 0, 0, "")
  | some (d1, d2, d3, pre) =>
    (goAtoiDigitsClamped d1, goAtoiDigitsClamped d2, goAtoiDigitsClamped d3, pre)

/-- `CompareVersions`: lexicographic on (major, minor, patch); the pre-release
component is parsed but never compared. -/
def CompareVersions (a b : String) : Int :=
  let (aMajor, aMinor, aPatch, _) := ParseVersion a
  let (bMajor, bMinor, bPatch, _) := ParseVersion b
  if aMajor ≠ bMajor then (if aMajor < bMajor then -1 else 1)
  else if aMinor ≠ bMinor then (if aMinor < bMinor then -1 else 1)
  else if aPatch ≠ bPatch then (if aPatch < bPatch then -1 else 1)
  else 0

/-- `UnsupportedAPIVersionError`. -/
structure UnsupportedAPIVersionError where
  APIVersion : String
  MinVersion : String
  MaxKnownVersion : String
deriving DecidableEq, Repr

/-- `CheckAPIVersionCompatibility` with the two package-level version
constants it reads made explicit parameters.  The second component records
whether `logger.Warn` was invoked. -/
def CheckAPIVersionCompatibilityWith (apiVersion minVersion maxKnownVersion : String) :
    Option UnsupportedAPIVersionError × Bool :=
  if CompareVersions apiVersion minVersion < 0 then
    (some { APIVersion := apiVersion, MinVersion := minVersion,
            MaxKnownVersion := maxKnownVersion }, false)
  else
    let (apiMajor, _, _, _) := ParseVersion apiVersion
    let (maxMajor, _, _, _) := ParseVersion maxKnownVersion
    (none, maxMajor < apiMajor)

/-- `MinAPIVersion` constant from the client source. -/
def MinAPIVersion : String := "0.0.0"

/-- `MaxKnownAPIVersion` constant from the client source. -/
def MaxKnownAPIVersion : String := "0.0.0"

/-- `CheckAPIVersionCompatibility` as compiled, at the package constants. -/
def CheckAPIVersionCompatibility (apiVersion : String) :
    Option UnsupportedAPIVersionError × Bool :=
  CheckAPIVersionCompatibilityWith apiVersion MinAPIVersion MaxKnownAPIVersion

example : ParseVersion "1.2.3-beta.1" = (1, 2, 3, "beta.1") := by decide
example : ParseVersion "abc" = (0, 0, 0, "") := by decide
example : ParseVersion "1.2" = (0, 0, 0, "") := by decide
example : CompareVersions "2.0.0" "1.9.9" = 1 := by decide
example : CompareVersions "0.5.0" "1.0.0" = -1 := by decide
example : (CheckAPIVersionCompatibilityWith "0.5.0" "1.0.0" "1.0.0").1.isSome := by decide
example : CheckAPIVersionCompatibilityWith "2.0.0" "1.0.0" "1.0.0" = (none, true) := by decide

/-! ### Error classifier (`parseErrorResponse`) -/

/-- `net/http.StatusText` restricted to the 4xx/5xx rows of its table
(`parseErrorResponse` is only reached for status ≥ 400); unknown codes map to
the empty string, as in Go. -/
def goStatusText (code : Int) : String :=
  if code = 400 then "Bad Request"
  else if code = 401 then "Unauthorized"
  else if code = 402 then "Payment Required"
  else if code = 403 then "Forbidden"
  else if code = 404 then "Not Found"
  else if code = 405 then "Method Not Allowed"
  else if code = 406 then "Not Acceptable"
  else if code = 407 then "Proxy Authentication Required"
  else if code = 408 then "Request Timeout"
  else if code = 409 then "Conflict"
  else if code = 410 then "Gone"
  else if code = 411 then "Length Required"
  else if code = 412 then "Precondition Failed"
  else if code = 413 then "Request Entity Too Large"
  else if code = 414 then "Request URI Too Long"
  else if code = 415 then "Unsupported Media Type"
  else if code = 416 then "Requested Range Not Satisfiable"
  else if code = 417 then "Expectation Failed"
  else if code = 418 then "I\x27m a teapot"
  else if code = 421 then "Misdirected Request"
  else if code = 422 then "Unprocessable Entity"
  else if code = 423 then "Locked"
  else if code = 424 then "Failed Dependency"
  else if code = 425 then "Too Early"
  else if code = 426 then "Upgrade Required"
  else if code = 428 then "Precondition Required"
  else if code = 429 then "Too Many Requests"
  else if code = 431 then "Request Header Fields Too Large"
  else if code = 451 then "Unavailable For Legal Reasons"
  else if code = 500 then "Internal Server Error"
  else if code = 501 then "Not Implemented"
  else if code = 502 then "Bad Gateway"
  else if code = 503 then "Service Unavailable"
  else if code = 504 then "Gateway Timeout"
  else if code = 505 then "HTTP Version Not Supported"
  else if code = 506 then "Variant Also Negotiates"
  else if code = 507 then "Insufficient Storage"
  else if code = 508 then "Loop Detected"
  else if code = 510 then "Not Extended"
  else if code = 511 then "Network Authentication Required"
  else ""

/-- The anonymous struct `json.Unmarshal` fills from an error body in
`parseErrorResponse`; JSON decoding itself is outside the embedding, so the
decoded struct is taken as the input (absent or unparseable bodies leave the
Go zero value: empty strings and a nil map). -/
structure ErrResp where
  error : String := ""
  detail : String := ""
  errors : List (String × String) := []
deriving DecidableEq, Repr

/-- The typed errors `parseErrorResponse` can build (`RefyneError` and its
wrappers from the errors source file); each carries the `Message`/`Status`
fields the code writes. -/
inductive APIErrorResult where
  | validation (message : String) (status : Int) (errors : List (String × String))
  | authentication (message : String) (status : Int)
  | forbidden (message : String) (status : Int)
  | notFound (message : String) (status : Int)
  | rateLimit (message : String) (status : Int) (retryAfter : Int)
  | generic (message : String) (status : Int) (detail : String)
deriving DecidableEq, Repr

/-- `parseErrorResponse`: the response is summarized by its status code and
`Retry-After` header (empty string when absent), the body by the decoded
`ErrResp`. -/
def parseErrorResponse (statusCode : Int) (retryAfterHeader : String)
    (errResp : ErrResp) : APIErrorResult :=
  let msg := if errResp.error = "" then goStatusText statusCode else errResp.error
  if statusCode = 400 then .validation msg 400 errResp.errors
  else if statusCode = 401 then .authentication msg 401
  else if statusCode = 403 then .forbidden msg 403
  else if statusCode = 404 then .notFound msg 404
  else if statusCode = 429 then
    let retryAfter : Int :=
      if retryAfterHeader = "" then 60
      else
        match goAtoi retryAfterHeader with
        | some v => v
        | none => 60
    .rateLimit msg 429 retryAfter
  else .generic msg statusCode errResp.detail

example : parseErrorResponse 404 "" {} = .notFound "Not Found" 404 := by decide
example : parseErrorResponse 429 "120" {} = .rateLimit "Too Many Requests" 429 120 := by decide
example : parseErrorResponse 429 "soon" {} = .rateLimit "Too Many Requests" 429 60 := by decide
example : parseErrorResponse 400 "" { error := "validation failed", errors := [("url", "required")] } =
    .validation "validation failed" 400 [("url", "required")] := by decide
example : parseErrorResponse 503 "" { detail := "downstream" } =
    .generic "Service Unavailable" 503 "downstream" := by decide

/-! ### Retry loop (`executeWithRetry`)

`time.Duration` is a signed 64-bit count of nanoseconds, so every duration
below is an `Int` number of nanoseconds and every Go arithmetic step on it
wraps through `int64`. -/

/-- `time.Second` in nanoseconds. -/
def secondNs : Int := 1000000000

/-- Go `1 << k` on `int`: two's-complement wrap of `2 ^ k` (zero from `k = 64`
on). -/
def goShl1 (k : Nat) : Int := int64 (2 ^ k)

/-- The backoff computation used on network and server errors,
`min(time.Duration(1<<(attempt-1))*time.Second, 30*time.Second)`. -/
def backoffNs (attempt : Nat) : Int :=
  min (int64 (goShl1 (attempt - 1) * secondNs)) (30 * secondNs)

/-- `calculateBackoff` of the companion client file, which caps with an `if`
instead of `min`; equal to `backoffNs` (see the example below). -/
def calculateBackoff (attempt : Nat) : Int :=
  let backoff := int64 (goShl1 (attempt - 1) * secondNs)
  if 30 * secondNs < backoff then 30 * secondNs else backoff

example : ∀ a : Nat, calculateBackoff a = backoffNs a := by
  intro a
  simp only [calculateBackoff, backoffNs, min_def]
  split <;> split <;> omega

/-- The inline `Retry-After` parse of the 429 branch: start from 1 second and
overwrite only when the header is present and `strconv.Atoi` succeeds. -/
def parseRetryAfterSeconds (ra : String) : Int :=
  if ra = "" then 1
  else
    match goAtoi ra with
    | some v => v
    | none => 1

/-- What `executeWithRetry` inspects on an `*http.Response`: the status code
and the `Retry-After` header (empty string when absent). -/
structure RetryResponse where
  StatusCode : Int
  RetryAfterHeader : String := ""
deriving DecidableEq, Repr

/-- The outcome of `c.httpClient.Do` on a given attempt number: `none` is a
transport-level network error, `some` a received response. -/
def Transport := Nat → Option RetryResponse

/-- `executeWithRetry`, with the HTTP transport as an oracle indexed by the
1-based attempt counter.  Returns the final outcome (`none` = network error
surfaced after exhausting retries) together with the list of durations passed
to `time.Sleep` between attempts, in nanoseconds and in order. -/
def executeWithRetry (maxRetries : Int) (transport : Transport) (attempt : Nat) :
    Option RetryResponse × List Int :=
  match transport attempt with
  | none =>
    if h : (attempt : Int) ≤ maxRetries then
      let r := executeWithRetry maxRetries transport (attempt + 1)
      (r.1, backoffNs attempt :: r.2)
    else (none, [])
  | some resp =>
    if h : resp.StatusCode = 429 ∧ (attempt : Int) ≤ maxRetries then
      let w := int64 (parseRetryAfterSeconds resp.RetryAfterHeader * secondNs)
      let r := executeWithRetry maxRetries transport (attempt + 1)
      (r.1, w :: r.2)
    else if h' : 500 ≤ resp.StatusCode ∧ (attempt : Int) ≤ maxRetries then
      let r := executeWithRetry maxRetries transport (attempt + 1)
      (r.1, backoffNs attempt :: r.2)
    else (some resp, [])
termination_by (maxRetries + 1 - attempt).toNat
decreasing_by
  all_goals omega

/-! ### Request pipeline (`requestWithOptions`)

JSON encoding/decoding and the retrying transport are external collaborators,
so one logical call is summarized by the inputs below; the client state the
pipeline reads and writes (the `apiVersionChecked` flag) is threaded
explicitly.  `V` is the type of decoded Go values, `B` the type of raw body
bytes. -/

/-- What `requestWithOptions` inspects on the `*http.Response` returned by
`executeWithRetry`: status code, the three headers it reads (empty string for
an absent header), and the body bytes. -/
structure FullResponse (B : Type) where
  StatusCode : Int
  XAPIVersion : String := ""
  CacheControlHeader : String := ""
  RetryAfterHeader : String := ""
  Body : B
deriving DecidableEq, Repr

/-- The distinct error returns of `requestWithOptions`. -/
inductive ReqError where
  | netError
  | version (e : UnsupportedAPIVersionError)
  | api (e : APIErrorResult)
  | cacheDecode
  | respDecode
deriving DecidableEq, Repr

/-- Observable outcome of one `requestWithOptions` call: its return value,
whether the transport was invoked, the `apiVersionChecked` flag after the
call, whether `CheckAPIVersionCompatibility` executed during the call, and the
entry written to the cache (if any). -/
structure ReqResult (V : Type) where
  result : Except ReqError V
  transportUsed : Bool
  checked' : Bool
  ranCheck : Bool
  cacheWrite : Option (CacheEntry V)

/-- The per-call inputs of `requestWithOptions`, with the collaborators
(pluggable cache lookup, JSON codec, retrying transport outcome) as
oracles. -/
structure CallIn (V B : Type) where
  method : String
  cacheOn : Bool := true
  skipCache : Bool := false
  cached : Option (CacheEntry V)
  marshal : V → Option B
  unmarshal : B → Option V
  execResult : Option (FullResponse B)
  parseBody : B → ErrResp
  decode : B → Option V
  now : Int := 0

/-- The tail of the network path, from the status check on: error
classification, response decode, and the conditional cache store; the flag
values it reports are supplied by the version-check section. -/
def afterVersionCheck (c : CallIn V B) (resp : FullResponse B)
    (checked' ranCheck : Bool) : ReqResult V :=
  if 400 ≤ resp.StatusCode then
    ⟨.error (.api (parseErrorResponse resp.StatusCode resp.RetryAfterHeader
      (c.parseBody resp.Body))), true, checked', ranCheck, none⟩
  else
    match c.decode resp.Body with
    | none => ⟨.error .respDecode, true, checked', ranCheck, none⟩
    | some v =>
      ⟨.ok v, true, checked', ranCheck,
        if c.method = "GET" ∧ c.cacheOn then CreateCacheEntry v resp.CacheControlHeader c.now
        else none⟩

/-- The network half of `requestWithOptions` (everything from the
`executeWithRetry` call on): the version-check section, then
`afterVersionCheck`. -/
def networkPath (checked : Bool) (c : CallIn V B) : ReqResult V :=
  match c.execResult with
  | none => ⟨.error .netError, true, checked, false, none⟩
  | some resp =>
    if checked then afterVersionCheck c resp true false
    else if resp.XAPIVersion ≠ "" then
      match CheckAPIVersionCompatibility resp.XAPIVersion with
      | (some e, _) => ⟨.error (.version e), true, false, true, none⟩
      | (none, _) => afterVersionCheck c resp true true
    else afterVersionCheck c resp true false

/-- `requestWithOptions`: the cache-consult section, falling through to
`networkPath` on a miss or a re-encode (`json.Marshal`) failure. -/
def requestWithOptions (checked : Bool) (c : CallIn V B) : ReqResult V :=
  if c.method = "GET" ∧ c.cacheOn ∧ ¬c.skipCache then
    match c.cached with
    | some entry =>
      match c.marshal entry.Value with
      | some data =>
        match c.unmarshal data with
        | some v => ⟨.ok v, false, checked, false, none⟩
        | none => ⟨.error .cacheDecode, false, checked, false, none⟩
      | none => networkPath checked c
    | none => networkPath checked c
  else networkPath checked c

/-- Whether a call reaches the version-check section with a response in hand:
it was not answered from the cache and the transport returned a response. -/
def reachedVC (c : CallIn V B) : Bool :=
  !((c.method = "GET" ∧ c.cacheOn ∧ ¬c.skipCache) &&
      (match c.cached with
       | some entry => (c.marshal entry.Value).isSome
       | none => false)) &&
    c.execResult.isSome

/-- Run a list of calls sequentially against one client instance, threading
the `apiVersionChecked` flag; returns the final flag and, per call, whether
the compatibility check executed. -/
def runCalls (checked : Bool) : List (CallIn V B) → Bool × List Bool
  | [] => (checked, [])
  | c :: rest =>
    ((runCalls (requestWithOptions checked c).checked' rest).1,
      (requestWithOptions checked c).ranCheck ::
        (runCalls (requestWithOptions checked c).checked' rest).2)

/-! ### Named auxiliary values used by witnesses and statements -/

/-- The token list `ParseCacheControl` folds over: lowercase, then split on
commas. -/
def cacheControlTokens (header : String) : List String :=
  goSplit (goToLower header) ','

/-- The `max-age` value a single token contributes, if any. -/
def maxAgeVal (t : String) : Option Int :=
  match classifyDirective (goTrimSpace t) with
  | .maxAge v => some v
  | _ => none

/-- The `stale-while-revalidate` value a single token contributes, if any. -/
def swrVal (t : String) : Option Int :=
  match classifyDirective (goTrimSpace t) with
  | .staleWhileRevalidate v => some v
  | _ => none

/-- A one-entry cache used by the C5 witness: key `"k"`, expired at 5, stale
window of 3 seconds. -/
def c5cache : MemoryCache Unit :=
  { store := [("k", ⟨(), 5, { StaleWhileRevalidate := some 3 }⟩)], order := ["k"],
    maxEntries := 10 }

/-- Perform a sequence of `Set` calls in order. -/
def setAll (c : MemoryCache α) (l : List (String × CacheEntry α)) : MemoryCache α :=
  l.foldl (fun c p => c.Set p.1 p.2) c

/-- A never-expiring, storable entry used by concrete cache scenarios. -/
def freshEntry : CacheEntry Unit := { Value := (), ExpiresAt := 1000 }

/-- One call against the `MemoryCache` API surface. -/
inductive CacheOp (α : Type) where
  | get (key : String) (now : Int)
  | set (key : String) (entry : CacheEntry α)
  | del (key : String)
  | clear
deriving DecidableEq, Repr

/-- Apply one API call to the cache state (`Get` for its lazy-expiry side
effect only). -/
def applyOp (c : MemoryCache α) : CacheOp α → MemoryCache α
  | .get key now => (c.Get key now).2
  | .set key entry => c.Set key entry
  | .del key => c.Delete key
  | .clear => c.Clear

/-- The structural invariant of `MemoryCache`: the insertion-order list is
exactly the store's key list (hence each key occurs exactly once), and the
store never exceeds the configured capacity. -/
def CacheInv (c : MemoryCache α) : Prop :=
  c.store.map Prod.fst = c.order ∧ c.order.Nodup ∧ (c.store.length : Int) ≤ c.maxEntries

/-- Whether the `executeWithRetry` result of a call carries a version header
(`Header.Get` yields the empty string when the header is absent). -/
def headerPresent (c : CallIn V B) : Bool :=
  match c.execResult with
  | some resp => resp.XAPIVersion ≠ ""
  | none => false

/-- A concrete GET whose cache hit re-encodes and decodes successfully. -/
def c2hit : CallIn Unit Unit :=
  { method := "GET", cached := some { Value := (), ExpiresAt := 100 },
    marshal := fun _ => some (), unmarshal := fun _ => some (),
    execResult := some { StatusCode := 200, Body := () },
    parseBody := fun _ => {}, decode := fun _ => some () }

/-- A concrete GET whose cache hit fails to re-encode (`json.Marshal`
error). -/
def c2fall : CallIn Unit Unit :=
  { method := "GET", cached := some { Value := (), ExpiresAt := 100 },
    marshal := fun _ => none, unmarshal := fun _ => some (),
    execResult := some { StatusCode := 200, Body := () },
    parseBody := fun _ => {}, decode := fun _ => some () }

/-- A concrete GET whose cache hit re-encodes but fails to decode into the
result (`json.Unmarshal` error). -/
def c2cex : CallIn Unit Unit :=
  { method := "GET", cached := some { Value := (), ExpiresAt := 100 },
    marshal := fun _ => some (), unmarshal := fun _ => none,
    execResult := some { StatusCode := 200, Body := () },
    parseBody := fun _ => {}, decode := fun _ => some () }

/-- One pipeline call with a transport response carrying status 200 and API
version header `"1.2.3"`, used by the C3 witness. -/
def c3call : CallIn Unit Unit :=
  { method := "POST", cached := none,
    marshal := fun _ => some (), unmarshal := fun _ => some (),
    execResult := some { StatusCode := 200, XAPIVersion := "1.2.3", Body := () },
    parseBody := fun _ => {}, decode := fun _ => some () }

/-- The conditions under which `executeWithRetry` retries an attempt's
outcome (transport error, 429, or status ≥ 500). -/
def isRetryTrigger (o : Option RetryResponse) : Bool :=
  match o with
  | none => true
  | some r => r.StatusCode = 429 || 500 ≤ r.StatusCode

/-- The duration, in nanoseconds, that `executeWithRetry` passes to
`time.Sleep` after a triggering attempt: the parsed Retry-After on 429
(converted to a duration through int64 multiplication), the capped
exponential backoff otherwise. -/
def attemptWaitNs (o : Option RetryResponse) (attempt : Nat) : Int :=
  match o with
  | none => backoffNs attempt
  | some r =>
    if r.StatusCode = 429 then int64 (parseRetryAfterSeconds r.RetryAfterHeader * secondNs)
    else backoffNs attempt

/-- A transport answering 429 with a huge Retry-After on the first attempt,
then 200. -/
def t429over : Transport := fun a =>
  if a = 1 then some { StatusCode := 429, RetryAfterHeader := "10000000000" }
  else some { StatusCode := 200 }

/-- A transport answering 500 on the first attempt, then 200. -/
def t500once : Transport := fun a =>
  if a = 1 then some { StatusCode := 500 } else some { StatusCode := 200 }

/-! ## Theorems -/

/-! ### C5: `MemoryCache.Get` semantics -/

lemma mapGet_mapDelete_self (m : List (String × β)) (k : String) :
    mapGet (mapDelete m k) k = none := by
  induction m with
  | nil => rfl
  | cons p rest ih =>
    by_cases h : p.1 = k
    · simp [mapDelete, mapGet, List.filter_cons, h] at ih ⊢
    · simp [mapDelete, mapGet, List.filter_cons, h] at ih ⊢

/-- C5: for a stored entry, `Get` returns it unchanged while `expiresAt` has
not passed; once expired it is still returned unchanged during a configured
stale-while-revalidate window; otherwise `Get` reports not-found and, as a
side effect, deletes the key from the store. -/
theorem C5_get_semantics (c : MemoryCache α) (key : String) (now : Int)
    (entry : CacheEntry α) (hfound : mapGet c.store key = some entry) :
    (now ≤ entry.ExpiresAt → c.Get key now = (some entry, c)) ∧
    (entry.ExpiresAt < now →
      (∀ swr, entry.CacheControl.StaleWhileRevalidate = some swr →
        (now < entry.ExpiresAt + swr → c.Get key now = (some entry, c)) ∧
        (entry.ExpiresAt + swr ≤ now → c.Get key now = (none, c.Delete key))) ∧
      (entry.CacheControl.StaleWhileRevalidate = none →
        c.Get key now = (none, c.Delete key))) ∧
    mapGet (c.Delete key).store key = none := by
  refine ⟨?_, ?_, mapGet_mapDelete_self c.store key⟩
  · intro hfresh
    simp [MemoryCache.Get, hfound, Int.not_lt.mpr hfresh]
  · intro hexp
    constructor
    · intro swr hswr
      constructor
      · intro hstale
        simp [MemoryCache.Get, hfound, hexp, hswr, hstale]
      · intro hover
        simp [MemoryCache.Get, hfound, hexp, hswr, Int.not_lt.mpr hover]
    · intro hnone
      simp [MemoryCache.Get, hfound, hexp, hnone]

/-- Witness for C5 at `c5cache`: read at 10, past both expiry and the stale
window, yields not-found and deletes the key. -/
theorem C5_get_semantics_witness :
    mapGet c5cache.store "k" = some ⟨(), 5, { StaleWhileRevalidate := some 3 }⟩ ∧
    c5cache.Get "k" 10 = (none, c5cache.Delete "k") := by
  refine ⟨by decide, ?_⟩
  exact ((C5_get_semantics c5cache "k" 10 ⟨(), 5, { StaleWhileRevalidate := some 3 }⟩
    (by decide)).2.1 (by decide)).1 3 (by decide) |>.2 (by decide)

/-! ### C6: cache-entry creation and the no-store invariant -/

/-- C6: `CreateCacheEntry` yields no entry when the parsed directives set
`noStore` or leave `maxAge` absent; any entry it does yield expires no earlier
than `now + maxAge`; and `MemoryCache.Set` is a no-op on a `noStore` entry —
so such entries are never stored. -/
theorem C6_no_store_invariant (α : Type) :
    (∀ (value : α) (header : String) (now : Int),
      (ParseCacheControl header).NoStore = true ∨ (ParseCacheControl header).MaxAge = none →
      CreateCacheEntry value header now = none) ∧
    (∀ (value : α) (header : String) (now : Int) (e : CacheEntry α),
      CreateCacheEntry value header now = some e →
      ∃ m, (ParseCacheControl header).MaxAge = some m ∧ now + m ≤ e.ExpiresAt) ∧
    (∀ (c : MemoryCache α) (key : String) (e : CacheEntry α),
      e.CacheControl.NoStore = true → c.Set key e = c) := by
  refine ⟨?_, ?_, ?_⟩
  · rintro value header now (hns | hma)
    · simp [CreateCacheEntry, hns]
    · simp [CreateCacheEntry, hma]
  · intro value header now e he
    simp only [CreateCacheEntry] at he
    split at he
    · exact absurd he (by simp)
    · split at he
      · exact absurd he (by simp)
      · rename_i m hm
        refine ⟨m, hm, ?_⟩
        simp only [Option.some.injEq] at he
        simp [← he]
  · intro c key e hns
    simp [MemoryCache.Set, hns]

/-- Witness for C6 at `α := Unit`, exercising the spec's three examples:
`no-store` and `private` are not cacheable, `max-age=3600` expires at least
3600 seconds out, and a `noStore` entry is never stored. -/
theorem C6_no_store_invariant_witness :
    CreateCacheEntry () "no-store" 0 = none ∧
    CreateCacheEntry () "private" 0 = none ∧
    (∃ m, (ParseCacheControl "max-age=3600").MaxAge = some m ∧
      0 + m ≤ ((⟨(), 3600, ParseCacheControl "max-age=3600"⟩ : CacheEntry Unit)).ExpiresAt) ∧
    (NewMemoryCache Unit 5).Set "k" ⟨(), 99, { NoStore := true }⟩ = NewMemoryCache Unit 5 := by
  refine ⟨?_, ?_, ?_, ?_⟩
  · exact (C6_no_store_invariant Unit).1 () "no-store" 0 (Or.inl (by decide))
  · exact (C6_no_store_invariant Unit).1 () "private" 0 (Or.inr (by decide))
  · exact (C6_no_store_invariant Unit).2.1 () "max-age=3600" 0 _ (by decide)
  · exact (C6_no_store_invariant Unit).2.2 _ "k" _ (by decide)

/-! ### C7: the error classifier table -/

/-- C7: for a terminal status ≥ 400, `parseErrorResponse` returns exactly the
typed error of the table — 400 Validation with the field-error mapping, 401
Authentication, 403 Forbidden, 404 NotFound, 429 RateLimit with retry-after
seconds defaulting to 60 on a missing or non-numeric header, anything else a
generic error with the raw detail — and the message falls back to the
standard textual status name exactly when the decoded body has no `error`
field (an absent or unparseable body decodes to the zero `ErrResp`). -/
theorem C7_error_classifier (statusCode : Int) (ra : String) (er : ErrResp)
    (h400 : 400 ≤ statusCode) :
    (statusCode = 400 → parseErrorResponse statusCode ra er =
      .validation (if er.error = "" then "Bad Request" else er.error) 400 er.errors) ∧
    (statusCode = 401 → parseErrorResponse statusCode ra er =
      .authentication (if er.error = "" then "Unauthorized" else er.error) 401) ∧
    (statusCode = 403 → parseErrorResponse statusCode ra er =
      .forbidden (if er.error = "" then "Forbidden" else er.error) 403) ∧
    (statusCode = 404 → parseErrorResponse statusCode ra er =
      .notFound (if er.error = "" then "Not Found" else er.error) 404) ∧
    (statusCode = 429 → parseErrorResponse statusCode ra er =
      .rateLimit (if er.error = "" then "Too Many Requests" else er.error) 429
        (if ra = "" then 60 else match goAtoi ra with | some v => v | none => 60)) ∧
    (statusCode ≠ 400 → statusCode ≠ 401 → statusCode ≠ 403 → statusCode ≠ 404 →
      statusCode ≠ 429 → parseErrorResponse statusCode ra er =
      .generic (if er.error = "" then goStatusText statusCode else er.error)
        statusCode er.detail) := by
  refine ⟨?_, ?_, ?_, ?_, ?_, ?_⟩
  · rintro rfl
    norm_num [parseErrorResponse, goStatusText]
  · rintro rfl
    norm_num [parseErrorResponse, goStatusText]
  · rintro rfl
    norm_num [parseErrorResponse, goStatusText]
  · rintro rfl
    norm_num [parseErrorResponse, goStatusText]
  · rintro rfl
    norm_num [parseErrorResponse, goStatusText]
  · intro h1 h2 h3 h4 h5
    simp [parseErrorResponse, h1, h2, h3, h4, h5]

/-- Witness for C7: a 429 with an invalid Retry-After header and an empty
body classifies as RateLimit with the 60-second default and the standard
status text. -/
theorem C7_error_classifier_witness :
    (400 : Int) ≤ 429 ∧
    parseErrorResponse 429 "soon" {} = .rateLimit "Too Many Requests" 429 60 := by
  refine ⟨by decide, ?_⟩
  have h := (C7_error_classifier 429 "soon" {} (by decide)).2.2.2.2.1 rfl
  simpa using h

/-! ### C8: API-version compatibility -/

lemma goAtoiDigitsClamped_nonneg (ds : List Char) : 0 ≤ goAtoiDigitsClamped ds := by
  simp only [goAtoiDigitsClamped]
  split <;> positivity

lemma parseVersion_nonneg (v : String) :
    0 ≤ (ParseVersion v).1 ∧ 0 ≤ (ParseVersion v).2.1 ∧ 0 ≤ (ParseVersion v).2.2.1 := by
  simp only [ParseVersion]
  split
  · simp
  · exact ⟨goAtoiDigitsClamped_nonneg _, goAtoiDigitsClamped_nonneg _,
      goAtoiDigitsClamped_nonneg _⟩

/-- No version string compares below `"0.0.0"`: every parsed component is
nonnegative. -/
lemma compareVersions_zero_nonneg (v : String) : 0 ≤ CompareVersions v "0.0.0" := by
  have h := parseVersion_nonneg v
  have h0 : ParseVersion "0.0.0" = (0, 0, 0, "") := by decide
  rcases hPV : ParseVersion v with ⟨ma, mi, pa, pre⟩
  rw [hPV] at h
  obtain ⟨h1, h2, h3⟩ := h
  simp only at h1 h2 h3
  simp only [CompareVersions, hPV, h0]
  split_ifs <;> omega

/-- C8: a server version below the minimum supported one fails the check with
an UnsupportedAPIVersion error carrying the three versions; with the shipped
constants a major version above the maximum known one succeeds with a warning
and never fails; an unparseable version string is treated as `0.0.0`; and the
pre-release suffix is parsed but ignored by the comparison. -/
theorem C8_version_compatibility :
    (∀ api minV maxV, CompareVersions api minV < 0 →
      CheckAPIVersionCompatibilityWith api minV maxV =
        (some { APIVersion := api, MinVersion := minV, MaxKnownVersion := maxV }, false)) ∧
    (∀ api, (ParseVersion MaxKnownAPIVersion).1 < (ParseVersion api).1 →
      CheckAPIVersionCompatibility api = (none, true)) ∧
    (∀ v, parseVersionMatch v.data = none → ParseVersion v = (0, 0, 0, "")) ∧
    CompareVersions "1.2.3-alpha" "1.2.3-beta" = 0 := by
  refine ⟨?_, ?_, ?_, by decide⟩
  · intro api minV maxV hlt
    simp [CheckAPIVersionCompatibilityWith, hlt]
  · intro api hmaj
    have hge := compareVersions_zero_nonneg api
    have hmax : ParseVersion "0.0.0" = (0, 0, 0, "") := by decide
    rcases hPV : ParseVersion api with ⟨ma, mi, pa, pre⟩
    simp only [MaxKnownAPIVersion, hmax, hPV] at hmaj
    simp [CheckAPIVersionCompatibility, CheckAPIVersionCompatibilityWith, MinAPIVersion,
      MaxKnownAPIVersion, hmax, hPV, if_neg (by omega : ¬ CompareVersions api "0.0.0" < 0),
      hmaj]
  · intro v hnone
    simp [ParseVersion, hnone]

/-! ### C9: `ParseCacheControl` invariances -/

lemma parseCacheControl_eq_foldl (header : String) :
    ParseCacheControl header = (cacheControlTokens header).foldl applyDirective {} := by
  by_cases hh : header = ""
  · subst hh
    decide
  · simp [ParseCacheControl, cacheControlTokens, hh]

/-- Two classified directives that do not assign conflicting values to the
same optional field commute as record updates. -/
lemma applyClassified_comm (d : CacheControlDirectives) (x y : Directive)
    (hma : ∀ v w, x = .maxAge v → y = .maxAge w → v = w)
    (hsw : ∀ v w, x = .staleWhileRevalidate v → y = .staleWhileRevalidate w → v = w) :
    applyClassified (applyClassified d x) y = applyClassified (applyClassified d y) x := by
  cases d
  cases x <;> cases y <;> simp_all [applyClassified]

/-- C9 (amended): `ParseCacheControl` is unchanged by permuting tokens, by
extra whitespace around tokens, and by letter case — two headers whose
trimmed, lowercased token lists are permutations of one another parse
identically — provided no two tokens assign conflicting values to the same
valued directive (`max-age` or `stale-while-revalidate`); unknown or
malformed tokens never fail the parse and contribute nothing (they classify
as `ignored`, which is the identity update). -/
theorem C9_parse_invariance (h₁ h₂ : String)
    (hperm : ((cacheControlTokens h₂).map goTrimSpace).Perm
      ((cacheControlTokens h₁).map goTrimSpace))
    (hma : ∀ x ∈ cacheControlTokens h₁, ∀ y ∈ cacheControlTokens h₁,
      maxAgeVal x = none ∨ maxAgeVal y = none ∨ maxAgeVal x = maxAgeVal y)
    (hsw : ∀ x ∈ cacheControlTokens h₁, ∀ y ∈ cacheControlTokens h₁,
      swrVal x = none ∨ swrVal y = none ∨ swrVal x = swrVal y) :
    (∀ d t, classifyDirective (goTrimSpace t) = .ignored → applyDirective d t = d) ∧
    ParseCacheControl h₁ = ParseCacheControl h₂ := by
  constructor
  · intro d t hig
    simp [applyDirective, hig, applyClassified]
  rw [parseCacheControl_eq_foldl, parseCacheControl_eq_foldl]
  have conv : ∀ (toks : List String) (d0 : CacheControlDirectives),
      toks.foldl applyDirective d0 =
        ((toks.map goTrimSpace).map classifyDirective).foldl applyClassified d0 := by
    intro toks d0
    rw [List.map_map, List.foldl_map]
    rfl
  rw [conv, conv]
  have hperm' := (hperm.map classifyDirective).symm
  refine List.Perm.foldl_eq' hperm' ?_ ({} : CacheControlDirectives)
  intro x hx y hy z
  simp only [List.mem_map] at hx hy
  obtain ⟨tx0, ⟨tx, htx, rfl⟩, rfl⟩ := hx
  obtain ⟨ty0, ⟨ty, hty, rfl⟩, rfl⟩ := hy
  refine applyClassified_comm z _ _ ?_ ?_
  · intro v w hxv hyw
    have h1 : maxAgeVal tx = some v := by simp [maxAgeVal, hxv]
    have h2 : maxAgeVal ty = some w := by simp [maxAgeVal, hyw]
    rcases hma tx htx ty hty with h | h | h <;> simp_all
  · intro v w hxv hyw
    have h1 : swrVal tx = some v := by simp [swrVal, hxv]
    have h2 : swrVal ty = some w := by simp [swrVal, hyw]
    rcases hsw tx htx ty hty with h | h | h <;> simp_all

/-- C9 is false exactly as stated: the two headers below are permutations of
one another token-for-token, yet they parse differently, because a repeated
`max-age` directive is last-writer-wins. -/
theorem C9_parse_invariance_counterexample :
    (cacheControlTokens "max-age=2,max-age=1").Perm
      (cacheControlTokens "max-age=1,max-age=2") ∧
    ParseCacheControl "max-age=1,max-age=2" ≠ ParseCacheControl "max-age=2,max-age=1" := by
  constructor
  · decide
  · decide

/-- Witness for C9 at two concrete headers differing in token order, casing,
and surrounding whitespace. -/
theorem C9_parse_invariance_witness :
    ((cacheControlTokens " max-age=3600 ,PRIVATE").map goTrimSpace).Perm
      ((cacheControlTokens "Private, max-age=3600").map goTrimSpace) ∧
    ParseCacheControl "Private, max-age=3600" = ParseCacheControl " max-age=3600 ,PRIVATE" := by
  refine ⟨by decide, ?_⟩
  exact (C9_parse_invariance "Private, max-age=3600" " max-age=3600 ,PRIVATE"
    (by decide) (by decide) (by decide)).2

/-! ### C4: FIFO eviction in `MemoryCache` -/

lemma evictLoop_no_evict (store : List (String × CacheEntry α)) (order : List String)
    (maxEntries : Int) (hlt : (store.length : Int) < maxEntries) :
    evictLoop store order maxEntries = (store, order) := by
  cases order with
  | nil => rfl
  | cons o rest => simp [evictLoop, Int.not_le.mpr hlt]

lemma mapInsert_of_get_none (m : List (String × β)) (k : String) (v : β)
    (h : mapGet m k = none) : mapInsert m k v = m ++ [(k, v)] := by
  induction m with
  | nil => rfl
  | cons p rest ih =>
    simp only [mapGet, List.find?_cons] at h
    by_cases hk : p.1 = k
    · simp [hk] at h
    · simp only [mapInsert, hk, if_false, List.cons_append, List.cons.injEq, true_and]
      exact ih (by simpa [mapGet, List.find?_cons, hk] using h)

lemma mapGet_append (m₁ m₂ : List (String × β)) (k : String) :
    mapGet (m₁ ++ m₂) k =
      match mapGet m₁ k with
      | some v => some v
      | none => mapGet m₂ k := by
  induction m₁ with
  | nil => simp [mapGet]
  | cons p rest ih =>
    by_cases hk : p.1 = k
    · simp [mapGet, List.find?_cons, hk] at ih ⊢
    · simp [mapGet, List.find?_cons, hk] at ih ⊢
      exact ih

lemma mapGet_not_mem (m : List (String × β)) (k : String)
    (h : k ∉ m.map Prod.fst) : mapGet m k = none := by
  induction m with
  | nil => rfl
  | cons p rest ih =>
    simp only [List.map_cons, List.mem_cons, not_or] at h
    have hdec : (decide (p.1 = k)) = false := by
      simp
      exact fun he => h.1 he.symm
    simp only [mapGet, List.find?_cons, hdec]
    exact ih h.2

lemma mapGet_of_mem_nodup (m : List (String × β)) (k : String) (v : β)
    (hnd : (m.map Prod.fst).Nodup) (hmem : (k, v) ∈ m) : mapGet m k = some v := by
  induction m with
  | nil => simp at hmem
  | cons p rest ih =>
    simp only [List.map_cons, List.nodup_cons] at hnd
    rcases List.mem_cons.mp hmem with h | h
    · simp [mapGet, List.find?_cons, ← h]
    · have hk : p.1 ≠ k := by
        intro he
        exact hnd.1 (he ▸ (List.mem_map.mpr ⟨(k, v), h, rfl⟩))
      have hdec : (decide (p.1 = k)) = false := by simp [hk]
      simp only [mapGet, List.find?_cons, hdec]
      exact ih hnd.2 h

lemma mapDelete_not_mem (m : List (String × β)) (k : String)
    (h : k ∉ m.map Prod.fst) : mapDelete m k = m := by
  induction m with
  | nil => rfl
  | cons p rest ih =>
    simp only [List.map_cons, List.mem_cons, not_or] at h
    have hdec : (decide (p.1 ≠ k)) = true := by
      simp
      exact fun he => h.1 he.symm
    simp only [mapDelete, List.filter_cons, hdec, if_true]
    exact congrArg (fun l => p :: l) (ih h.2)

lemma setAll_singleton (c : MemoryCache α) (p : String × CacheEntry α) :
    setAll c [p] = c.Set p.1 p.2 := rfl

lemma set_fresh_no_evict (c : MemoryCache α) (k : String) (e : CacheEntry α)
    (hns : e.CacheControl.NoStore = false)
    (hfresh : mapGet c.store k = none)
    (hlt : (c.store.length : Int) < c.maxEntries) :
    c.Set k e = { c with store := c.store ++ [(k, e)], order := c.order ++ [k] } := by
  simp [MemoryCache.Set, hns, evictLoop_no_evict _ _ _ hlt, hfresh,
    mapInsert_of_get_none _ _ _ hfresh]

lemma setAll_no_evict (l : List (String × CacheEntry α)) (c : MemoryCache α)
    (hnd : (l.map Prod.fst).Nodup)
    (hfresh : ∀ p ∈ l, mapGet c.store p.1 = none)
    (hns : ∀ p ∈ l, p.2.CacheControl.NoStore = false)
    (hlen : (c.store.length : Int) + l.length ≤ c.maxEntries) :
    setAll c l = { c with store := c.store ++ l, order := c.order ++ l.map Prod.fst } := by
  induction l generalizing c with
  | nil =>
    cases c
    simp [setAll]
  | cons p rest ih =>
    have hc' : c.Set p.1 p.2 =
        { c with store := c.store ++ [(p.1, p.2)], order := c.order ++ [p.1] } := by
      refine set_fresh_no_evict c p.1 p.2 (hns p (List.mem_cons_self p rest))
        (hfresh p (List.mem_cons_self p rest)) ?_
      simp only [List.length_cons] at hlen
      omega
    have hstep : setAll c (p :: rest) = setAll (c.Set p.1 p.2) rest := rfl
    rw [hstep, hc']
    simp only [List.map_cons, List.nodup_cons] at hnd
    rw [ih _ hnd.2 ?hfresh ?hns ?hlen]
    · simp [List.append_assoc]
    case hfresh =>
      intro q hq
      rw [mapGet_append]
      rw [hfresh q (List.mem_cons_of_mem p hq)]
      have hqk : q.1 ≠ p.1 := by
        intro he
        exact hnd.1 (he ▸ List.mem_map.mpr ⟨q, hq, rfl⟩)
      exact mapGet_not_mem _ _ (by simpa using hqk)
    case hns =>
      exact fun q hq => hns q (List.mem_cons_of_mem p hq)
    case hlen =>
      simp only [List.length_append, List.length_cons, List.length_nil] at hlen ⊢
      push_cast at hlen ⊢
      omega

/-- C4 (amended): filling a fresh capacity-`N` cache with `N + 1` distinct
storable keys evicts exactly the first-inserted key, leaving the other `N`
retrievable; and re-inserting an already-present key leaves the eviction
order unchanged provided the store is below capacity (at capacity, `Set`
first evicts the oldest key even when the target key is already present,
which can move the re-inserted key to the back of the order). -/
theorem C4_fifo_eviction (N : Nat) (hN : 1 ≤ N) (p₀ : String × CacheEntry α)
    (rest : List (String × CacheEntry α)) (hlen : rest.length = N)
    (hnd : ((p₀ :: rest).map Prod.fst).Nodup)
    (hns : ∀ p ∈ p₀ :: rest, p.2.CacheControl.NoStore = false)
    (now : Int) (hfr : ∀ p ∈ p₀ :: rest, now ≤ p.2.ExpiresAt) :
    (((setAll (NewMemoryCache α N) (p₀ :: rest)).Get p₀.1 now).1 = none) ∧
    (∀ p ∈ rest, ((setAll (NewMemoryCache α N) (p₀ :: rest)).Get p.1 now).1 = some p.2) ∧
    (∀ (c : MemoryCache α) (key : String) (entry : CacheEntry α),
      (mapGet c.store key).isSome → entry.CacheControl.NoStore = false →
      (c.store.length : Int) < c.maxEntries →
      (c.Set key entry).order = c.order) := by
  have hrest : rest ≠ [] := by
    intro h
    rw [h] at hlen
    simp at hlen
    omega
  obtain ⟨M, q, rfl⟩ : ∃ M q, rest = M ++ [q] :=
    ⟨rest.dropLast, rest.getLast hrest, (List.dropLast_append_getLast hrest).symm⟩
  have hMlen : M.length = N - 1 := by
    simp only [List.length_append, List.length_singleton] at hlen
    omega
  -- untangle the distinctness of the N + 1 keys
  have hnd' : (p₀.1 :: (M.map Prod.fst ++ [q.1])).Nodup := by
    simpa using hnd
  have hp0_not : p₀.1 ∉ M.map Prod.fst ++ [q.1] := (List.nodup_cons.mp hnd').1
  have htail : (M.map Prod.fst ++ [q.1]).Nodup := (List.nodup_cons.mp hnd').2
  have hp0_not_M : p₀.1 ∉ M.map Prod.fst := fun h => hp0_not (List.mem_append_left _ h)
  have hM_nd : (M.map Prod.fst).Nodup := (List.nodup_append.mp htail).1
  have hq_not_M : q.1 ∉ M.map Prod.fst := by
    rcases List.nodup_append.mp htail with ⟨-, -, hdisj⟩
    intro hmem
    exact hdisj hmem (by simp)
  -- Stage 1: the first N inserts fill the cache without eviction.
  have hc₁ : setAll (NewMemoryCache α N) (p₀ :: M) =
      { store := p₀ :: M, order := (p₀ :: M).map Prod.fst, maxEntries := (N : Int) } := by
    rw [setAll_no_evict (p₀ :: M) (NewMemoryCache α N) ?nd ?fr ?ns ?ln]
    · simp [NewMemoryCache]
    case nd =>
      exact List.nodup_cons.mpr ⟨hp0_not_M, hM_nd⟩
    case fr =>
      intro p _
      rfl
    case ns =>
      intro p hp
      refine hns p ?_
      rcases List.mem_cons.mp hp with h | h
      · exact h ▸ List.mem_cons_self _ _
      · exact List.mem_cons_of_mem _ (List.mem_append_left _ h)
    case ln =>
      have hM1 : M.length + 1 = N := by omega
      simp only [NewMemoryCache, List.length_nil, List.length_cons, hM1]
      omega
  -- Stage 2: the final insert evicts exactly the first-inserted key.
  have hlen1 : ((p₀ :: M).length : Int) = (N : Int) := by
    simp only [List.length_cons, hMlen]
    push_cast
    omega
  have hdelM : mapDelete M p₀.1 = M := mapDelete_not_mem M p₀.1 hp0_not_M
  have hdel : mapDelete (p₀ :: M) p₀.1 = M := by
    have hdec : (decide (p₀.1 ≠ p₀.1)) = false := by simp
    simp only [mapDelete, List.filter_cons, hdec, Bool.false_eq_true, if_false]
    exact hdelM
  have hev : evictLoop (p₀ :: M) ((p₀ :: M).map Prod.fst) ((N : Nat) : Int) =
      (M, M.map Prod.fst) := by
    simp only [List.map_cons]
    rw [evictLoop, if_pos (le_of_eq hlen1.symm), hdel]
    refine evictLoop_no_evict M _ _ ?_
    rw [hMlen]
    omega
  have hfinal : setAll (NewMemoryCache α N) (p₀ :: (M ++ [q])) =
      { store := M ++ [q], order := M.map Prod.fst ++ [q.1], maxEntries := (N : Int) } := by
    have happ : setAll (NewMemoryCache α N) (p₀ :: (M ++ [q])) =
        setAll (setAll (NewMemoryCache α N) (p₀ :: M)) [q] := by
      show setAll (NewMemoryCache α N) ((p₀ :: M) ++ [q]) = _
      exact List.foldl_append _ _ _ _
    rw [happ, hc₁, setAll_singleton]
    rw [MemoryCache.Set, if_neg (by simp [hns q (by simp)])]
    simp only [hev]
    rw [mapGet_not_mem M q.1 hq_not_M]
    simp only [Option.isSome_none, Bool.false_eq_true, if_false,
      mapInsert_of_get_none M q.1 q.2 (mapGet_not_mem M q.1 hq_not_M)]
  refine ⟨?_, ?_, ?_⟩
  · rw [hfinal]
    have : mapGet (M ++ [q]) p₀.1 = none := by
      refine mapGet_not_mem _ _ ?_
      simpa using hp0_not
    simp [MemoryCache.Get, this]
  · intro p hp
    rw [hfinal]
    have hget : mapGet (M ++ [q]) p.1 = some p.2 := by
      refine mapGet_of_mem_nodup _ _ _ ?_ hp
      simpa using htail
    have hexp : ¬ p.2.ExpiresAt < now :=
      Int.not_lt.mpr (hfr p (List.mem_cons_of_mem _ hp))
    simp [MemoryCache.Get, hget, hexp]
  · intro c key entry hsome hnse hlt
    rw [MemoryCache.Set, if_neg (by simp [hnse])]
    simp [evictLoop_no_evict _ _ _ hlt, hsome]

/-- C4 is false as stated: with capacity 2 and keys `a`, `b` present (order
`[a, b]`), re-inserting the already-present key `a` moves it from the front
to the back of the eviction order, because `Set` evicts at capacity before
checking for key presence. -/
theorem C4_fifo_eviction_counterexample :
    (mapGet (((NewMemoryCache Unit 2).Set "a" freshEntry).Set "b" freshEntry).store
      "a").isSome = true ∧
    ((((NewMemoryCache Unit 2).Set "a" freshEntry).Set "b" freshEntry).order.indexOf "a"
      = 0) ∧
    (((((NewMemoryCache Unit 2).Set "a" freshEntry).Set "b" freshEntry).Set "a"
      freshEntry).order.indexOf "a" = 1) := by
  refine ⟨by decide, by decide, by decide⟩

/-- Witness for C4: capacity 2, keys `a`, `b`, `c` inserted in order; `a` is
evicted, `b` and `c` remain retrievable. -/
theorem C4_fifo_eviction_witness :
    ((setAll (NewMemoryCache Unit 2)
      [("a", freshEntry), ("b", freshEntry), ("c", freshEntry)]).Get "a" 0).1 = none ∧
    (∀ p ∈ [("b", freshEntry), ("c", freshEntry)],
      ((setAll (NewMemoryCache Unit 2)
        [("a", freshEntry), ("b", freshEntry), ("c", freshEntry)]).Get p.1 0).1 =
        some p.2) := by
  have h := C4_fifo_eviction 2 (by decide) ("a", freshEntry)
    [("b", freshEntry), ("c", freshEntry)] (by decide) (by decide)
    (by decide) 0 (by decide)
  exact ⟨h.1, h.2.1⟩

/-! ### C10: the structural cache invariant -/

lemma mapGet_isSome_iff (m : List (String × β)) (k : String) :
    (mapGet m k).isSome = true ↔ k ∈ m.map Prod.fst := by
  induction m with
  | nil => simp [mapGet]
  | cons p rest ih =>
    by_cases hk : p.1 = k
    · simp [mapGet, List.find?_cons, hk]
    · have hdec : (decide (p.1 = k)) = false := by simp [hk]
      simp only [mapGet, List.find?_cons, hdec, List.map_cons, List.mem_cons]
      rw [show (Option.map (fun p => p.2)
        (List.find? (fun p => decide (p.1 = k)) rest)) = mapGet rest k from rfl]
      rw [ih]
      constructor
      · exact Or.inr
      · rintro (h | h)
        · exact absurd h.symm hk
        · exact h

lemma mapInsert_of_get_some (m : List (String × β)) (k : String) (v : β)
    (h : (mapGet m k).isSome = true) :
    (mapInsert m k v).map Prod.fst = m.map Prod.fst ∧
      (mapInsert m k v).length = m.length := by
  induction m with
  | nil => simp [mapGet] at h
  | cons p rest ih =>
    by_cases hk : p.1 = k
    · simp [mapInsert, hk]
    · have hdec : (decide (p.1 = k)) = false := by simp [hk]
      have h' : (mapGet rest k).isSome = true := by
        simpa only [mapGet, List.find?_cons, hdec] using h
      simp only [mapInsert, hk, if_false, List.map_cons, List.length_cons]
      exact ⟨by rw [(ih h').1], by rw [(ih h').2]⟩

lemma evictLoop_inv (order : List String) (store : List (String × CacheEntry α))
    (maxEntries : Int) (hmap : store.map Prod.fst = order) (hnd : order.Nodup) :
    (evictLoop store order maxEntries).1.map Prod.fst = (evictLoop store order maxEntries).2 ∧
    (evictLoop store order maxEntries).2.Nodup ∧
    (((evictLoop store order maxEntries).1.length : Int) < maxEntries ∨
      (evictLoop store order maxEntries).1 = []) := by
  induction order generalizing store with
  | nil =>
    have hs : store = [] := by
      cases store with
      | nil => rfl
      | cons p st => simp at hmap
    subst hs
    simp [evictLoop]
  | cons o rest ih =>
    cases store with
    | nil => simp at hmap
    | cons p st =>
      simp only [List.map_cons, List.cons.injEq] at hmap
      obtain ⟨hp, hst⟩ := hmap
      obtain ⟨ho, hndr⟩ := List.nodup_cons.mp hnd
      simp only [evictLoop]
      split
      · have hdel : mapDelete (p :: st) o = st := by
          have hdec : (decide (p.1 ≠ o)) = false := by simp [hp]
          simp only [mapDelete, List.filter_cons, hdec, Bool.false_eq_true, if_false]
          rw [show List.filter (fun q => decide (q.1 ≠ o)) st = mapDelete st o from rfl]
          exact mapDelete_not_mem st o (hst ▸ ho)
        rw [hdel]
        exact ih st hst hndr
      · rename_i hlt
        refine ⟨by simp [hp, hst], hnd, Or.inl ?_⟩
        show (((p :: st).length : Int)) < maxEntries
        omega

lemma mapDelete_removeFirst (store : List (String × CacheEntry α)) (key : String)
    (hnd : (store.map Prod.fst).Nodup) :
    (mapDelete store key).map Prod.fst = removeFirst (store.map Prod.fst) key := by
  induction store with
  | nil => rfl
  | cons p st ih =>
    simp only [List.map_cons, List.nodup_cons] at hnd
    by_cases hk : p.1 = key
    · have hdec : (decide (p.1 ≠ key)) = false := by simp [hk]
      simp only [mapDelete, List.filter_cons, hdec, Bool.false_eq_true, if_false,
        List.map_cons, removeFirst, if_pos hk]
      rw [show List.filter (fun q => decide (q.1 ≠ key)) st = mapDelete st key from rfl]
      rw [mapDelete_not_mem st key (hk ▸ hnd.1)]
    · have hdec : (decide (p.1 ≠ key)) = true := by simp [hk]
      simp only [mapDelete, List.filter_cons, hdec, if_true, List.map_cons, removeFirst,
        if_neg hk]
      exact congrArg (fun l => p.1 :: l) (ih hnd.2)

lemma mapDelete_sublist_keys (store : List (String × CacheEntry α)) (key : String) :
    ((mapDelete store key).map Prod.fst).Sublist (store.map Prod.fst) :=
  (List.filter_sublist store).map Prod.fst

lemma delete_inv (c : MemoryCache α) (key : String) (h : CacheInv c) :
    CacheInv (c.Delete key) := by
  obtain ⟨hmap, hnd, hlen⟩ := h
  refine ⟨?_, ?_, ?_⟩
  · show (mapDelete c.store key).map Prod.fst = removeFirst c.order key
    rw [mapDelete_removeFirst c.store key (hmap ▸ hnd), hmap]
  · show (removeFirst c.order key).Nodup
    rw [← hmap, ← mapDelete_removeFirst c.store key (hmap ▸ hnd)]
    exact ((mapDelete_sublist_keys c.store key).nodup (hmap ▸ hnd))
  · show ((mapDelete c.store key).length : Int) ≤ c.maxEntries
    have := List.length_filter_le (fun q => decide (q.1 ≠ key)) c.store
    have hle : (mapDelete c.store key).length ≤ c.store.length := this
    omega

lemma get_snd (c : MemoryCache α) (key : String) (now : Int) :
    (c.Get key now).2 = c ∨ (c.Get key now).2 = c.Delete key := by
  cases h : mapGet c.store key with
  | none => simp [MemoryCache.Get, h]
  | some e =>
    by_cases h1 : e.ExpiresAt < now
    · cases h2 : e.CacheControl.StaleWhileRevalidate with
      | none => simp [MemoryCache.Get, h, h1, h2]
      | some s =>
        by_cases h3 : now < e.ExpiresAt + s <;> simp [MemoryCache.Get, h, h1, h2, h3]
    · simp [MemoryCache.Get, h, h1]

lemma set_inv (c : MemoryCache α) (key : String) (e : CacheEntry α)
    (hmax : 1 ≤ c.maxEntries) (h : CacheInv c) : CacheInv (c.Set key e) := by
  obtain ⟨hmap, hnd, hlen⟩ := h
  by_cases hns : e.CacheControl.NoStore = true
  · rw [MemoryCache.Set, if_pos hns]
    exact ⟨hmap, hnd, hlen⟩
  · rw [MemoryCache.Set, if_neg hns]
    obtain ⟨hmap', hnd', hcap'⟩ := evictLoop_inv c.order c.store c.maxEntries hmap hnd
    rcases hEL : evictLoop c.store c.order c.maxEntries with ⟨store', order'⟩
    rw [hEL] at hmap' hnd' hcap'
    simp only at hmap' hnd' hcap'
    by_cases hget : (mapGet store' key).isSome = true
    · obtain ⟨hm, hl⟩ := mapInsert_of_get_some store' key e hget
      simp only [hget, if_true]
      refine ⟨?_, ?_, ?_⟩
      · show List.map Prod.fst (mapInsert store' key e) = order'
        rw [hm, hmap']
      · show order'.Nodup
        exact hnd'
      · show ((mapInsert store' key e).length : Int) ≤ c.maxEntries
        rw [hl]
        rcases hcap' with hlt | hemp
        · omega
        · subst hemp
          simp [mapGet] at hget
    · simp only [hget, if_false]
      have hnone : mapGet store' key = none := by
        rcases ho : mapGet store' key with _ | w
        · rfl
        · rw [ho] at hget
          simp at hget
      have hnotmem : key ∉ store'.map Prod.fst := by
        rw [← mapGet_isSome_iff]
        simp [hnone]
      refine ⟨?_, ?_, ?_⟩
      · show List.map Prod.fst (mapInsert store' key e) = order' ++ [key]
        rw [mapInsert_of_get_none store' key e hnone, List.map_append, hmap']
        rfl
      · show (order' ++ [key]).Nodup
        rw [← hmap']
        exact List.Nodup.append (hmap' ▸ hnd') (List.nodup_singleton key)
          (by simpa [List.disjoint_singleton] using hnotmem)
      · show ((mapInsert store' key e).length : Int) ≤ c.maxEntries
        rw [mapInsert_of_get_none store' key e hnone]
        simp only [List.length_append, List.length_singleton]
        rcases hcap' with hlt | hemp
        · push_cast
          omega
        · subst hemp
          simpa using hmax

lemma applyOp_inv (c : MemoryCache α) (op : CacheOp α) (hmax : 1 ≤ c.maxEntries)
    (h : CacheInv c) : CacheInv (applyOp c op) ∧ (applyOp c op).maxEntries = c.maxEntries := by
  cases op with
  | get key now =>
    rcases get_snd c key now with hc | hc <;> rw [applyOp, hc]
    · exact ⟨h, rfl⟩
    · exact ⟨delete_inv c key h, rfl⟩
  | set key e =>
    refine ⟨set_inv c key e hmax h, ?_⟩
    rw [applyOp, MemoryCache.Set]
    split
    · rfl
    · rcases hEL : evictLoop c.store c.order c.maxEntries with ⟨store', order'⟩
      rfl
  | del key => exact ⟨delete_inv c key h, rfl⟩
  | clear =>
    refine ⟨⟨rfl, List.nodup_nil, ?_⟩, rfl⟩
    show (([] : List (String × CacheEntry α)).length : Int) ≤ c.maxEntries
    have h0 : (([] : List (String × CacheEntry α)).length : Int) = 0 := by simp
    omega

lemma foldl_applyOp_inv (ops : List (CacheOp α)) (c : MemoryCache α)
    (hmax : 1 ≤ c.maxEntries) (h : CacheInv c) :
    CacheInv (ops.foldl applyOp c) ∧ (ops.foldl applyOp c).maxEntries = c.maxEntries := by
  induction ops generalizing c with
  | nil => exact ⟨h, rfl⟩
  | cons op rest ih =>
    obtain ⟨h1, h2⟩ := applyOp_inv c op hmax h
    obtain ⟨h3, h4⟩ := ih (applyOp c op) (by rw [h2]; exact hmax) h1
    refine ⟨h3, ?_⟩
    show (List.foldl applyOp (applyOp c op) rest).maxEntries = c.maxEntries
    rw [h4, h2]

/-- C10: starting from a fresh cache of capacity `N ≥ 1`, after any finite
sequence of `Get`/`Set`/`Delete`/`Clear` calls the insertion-order list
contains exactly the keys present in the store, each exactly once, and the
number of stored entries never exceeds `N`. -/
theorem C10_cache_structural_invariant (N : Nat) (hN : 1 ≤ N) (ops : List (CacheOp α)) :
    (ops.foldl applyOp (NewMemoryCache α N)).order.Nodup ∧
    (∀ k, k ∈ (ops.foldl applyOp (NewMemoryCache α N)).order ↔
      (mapGet (ops.foldl applyOp (NewMemoryCache α N)).store k).isSome = true) ∧
    (ops.foldl applyOp (NewMemoryCache α N)).Size ≤ (N : Int) := by
  have hinit : CacheInv (NewMemoryCache α N) := by
    refine ⟨rfl, List.nodup_nil, ?_⟩
    simp [NewMemoryCache]
  have hmax : 1 ≤ (NewMemoryCache α N).maxEntries := by
    simp only [NewMemoryCache]
    omega
  obtain ⟨⟨hmap, hnd, hlen⟩, hm⟩ := foldl_applyOp_inv ops (NewMemoryCache α N) hmax hinit
  refine ⟨hnd, ?_, ?_⟩
  · intro k
    rw [mapGet_isSome_iff, hmap]
  · show ((ops.foldl applyOp (NewMemoryCache α N)).store.length : Int) ≤ (N : Int)
    rw [hm] at hlen
    simpa [NewMemoryCache] using hlen

/-- Witness for C10 at a concrete operation sequence over a capacity-2
cache. -/
theorem C10_cache_structural_invariant_witness :
    (1 ≤ 2) ∧
    (([CacheOp.set "a" freshEntry, CacheOp.set "b" freshEntry,
        CacheOp.set "c" freshEntry, CacheOp.del "b", CacheOp.get "c" 0,
        CacheOp.clear, CacheOp.set "d" freshEntry].foldl applyOp
        (NewMemoryCache Unit 2)).order.Nodup ∧
      (∀ k, k ∈ ([CacheOp.set "a" freshEntry, CacheOp.set "b" freshEntry,
        CacheOp.set "c" freshEntry, CacheOp.del "b", CacheOp.get "c" 0,
        CacheOp.clear, CacheOp.set "d" freshEntry].foldl applyOp
        (NewMemoryCache Unit 2)).order ↔
        (mapGet ([CacheOp.set "a" freshEntry, CacheOp.set "b" freshEntry,
          CacheOp.set "c" freshEntry, CacheOp.del "b", CacheOp.get "c" 0,
          CacheOp.clear, CacheOp.set "d" freshEntry].foldl applyOp
          (NewMemoryCache Unit 2)).store k).isSome = true) ∧
      ([CacheOp.set "a" freshEntry, CacheOp.set "b" freshEntry,
        CacheOp.set "c" freshEntry, CacheOp.del "b", CacheOp.get "c" 0,
        CacheOp.clear, CacheOp.set "d" freshEntry].foldl applyOp
        (NewMemoryCache Unit 2)).Size ≤ (2 : Int)) :=
  ⟨by decide, C10_cache_structural_invariant 2 (by decide) _⟩

/-- Witness for C8: `"0.5.0"` against minimum `"1.0.0"` fails; server
`"2.0.0"` is above the shipped maximum known major and warns. -/
theorem C8_version_compatibility_witness :
    CompareVersions "0.5.0" "1.0.0" < 0 ∧
    CheckAPIVersionCompatibilityWith "0.5.0" "1.0.0" "1.0.0" =
      (some { APIVersion := "0.5.0", MinVersion := "1.0.0", MaxKnownVersion := "1.0.0" },
        false) ∧
    CheckAPIVersionCompatibility "2.0.0" = (none, true) := by
  refine ⟨by decide, ?_, ?_⟩
  · exact C8_version_compatibility.1 "0.5.0" "1.0.0" "1.0.0" (by decide)
  · exact C8_version_compatibility.2.1 "2.0.0" (by decide)

/-! ### C2: cache hit and fallback behaviour of the pipeline -/

lemma afterVersionCheck_transportUsed (c : CallIn V B) (resp : FullResponse B)
    (a b : Bool) : (afterVersionCheck c resp a b).transportUsed = true := by
  rw [afterVersionCheck]
  split
  · rfl
  · rcases c.decode resp.Body with _ | v <;> rfl

lemma networkPath_transportUsed (checked : Bool) (c : CallIn V B) :
    (networkPath checked c).transportUsed = true := by
  rw [networkPath]
  rcases c.execResult with _ | resp
  · rfl
  · dsimp only
    split
    · exact afterVersionCheck_transportUsed ..
    · split
      · split
        · rfl
        · exact afterVersionCheck_transportUsed ..
      · exact afterVersionCheck_transportUsed ..

/-- C2 (amended): with caching on and not skipped, a GET cache hit whose
cached value re-encodes and decodes successfully returns the decoded value
without invoking the transport; when re-encoding (`json.Marshal`) the cached
value fails, the call falls back to the live network path (which always
invokes the transport); but when decoding the re-encoded bytes into the
result (`json.Unmarshal`) fails, the decode error is returned directly
without falling back. -/
theorem C2_cache_hit_and_fallback (checked : Bool) (c : CallIn V B)
    (hm : c.method = "GET") (hon : c.cacheOn = true) (hskip : c.skipCache = false)
    (entry : CacheEntry V) (hhit : c.cached = some entry) :
    (∀ data v, c.marshal entry.Value = some data → c.unmarshal data = some v →
      requestWithOptions checked c = ⟨.ok v, false, checked, false, none⟩) ∧
    (c.marshal entry.Value = none →
      requestWithOptions checked c = networkPath checked c ∧
      (networkPath checked c).transportUsed = true) ∧
    (∀ data, c.marshal entry.Value = some data → c.unmarshal data = none →
      requestWithOptions checked c = ⟨.error .cacheDecode, false, checked, false, none⟩) := by
  have hcond : c.method = "GET" ∧ c.cacheOn ∧ ¬c.skipCache := by
    refine ⟨hm, by rw [hon], by rw [hskip]; simp⟩
  refine ⟨?_, ?_, ?_⟩
  · intro data v hdata hv
    rw [requestWithOptions, if_pos hcond, hhit]
    simp only [hdata, hv]
  · intro hfail
    constructor
    · rw [requestWithOptions, if_pos hcond, hhit]
      simp only [hfail]
    · exact networkPath_transportUsed checked c
  · intro data hdata hv
    rw [requestWithOptions, if_pos hcond, hhit]
    simp only [hdata, hv]

/-- C2 is false as stated: at `c2cex` the cached value is found and
re-encoded, but decoding it into the result fails, and the pipeline returns
that error with the transport never invoked — it does not fall back to a
live network call. -/
theorem C2_cache_hit_and_fallback_counterexample :
    (requestWithOptions false c2cex).result = .error .cacheDecode ∧
    (requestWithOptions false c2cex).transportUsed = false := by
  exact ⟨rfl, rfl⟩

/-- Witness for C2: a clean hit at `c2hit` is served from the cache, and the
re-encode failure at `c2fall` falls back to the network path. -/
theorem C2_cache_hit_and_fallback_witness :
    (requestWithOptions false c2hit = ⟨.ok (), false, false, false, none⟩) ∧
    (requestWithOptions false c2fall = networkPath false c2fall ∧
      (networkPath false c2fall).transportUsed = true) :=
  ⟨(C2_cache_hit_and_fallback false c2hit rfl rfl rfl { Value := (), ExpiresAt := 100 }
      rfl).1 () () rfl rfl,
    (C2_cache_hit_and_fallback false c2fall rfl rfl rfl { Value := (), ExpiresAt := 100 }
      rfl).2.1 rfl⟩

/-! ### C3: the one-shot API-version check -/

/-- With the shipped constants (`MinAPIVersion = "0.0.0"`), the compatibility
check can never return an error: no parsed version compares below `0.0.0`. -/
lemma checkAPIVersionCompatibility_fst (v : String) :
    (CheckAPIVersionCompatibility v).1 = none := by
  have hge := compareVersions_zero_nonneg v
  rw [CheckAPIVersionCompatibility, CheckAPIVersionCompatibilityWith]
  rw [if_neg (by simp only [MinAPIVersion]; omega)]

lemma afterVersionCheck_flags (c : CallIn V B) (resp : FullResponse B) (a b : Bool) :
    (afterVersionCheck c resp a b).checked' = a ∧
      (afterVersionCheck c resp a b).ranCheck = b := by
  rw [afterVersionCheck]
  split
  · exact ⟨rfl, rfl⟩
  · rcases c.decode resp.Body with _ | v <;> exact ⟨rfl, rfl⟩

lemma networkPath_flag (checked : Bool) (c : CallIn V B) :
    (networkPath checked c).checked' = (checked || c.execResult.isSome) ∧
    (networkPath checked c).ranCheck =
      (!checked && (c.execResult.isSome && headerPresent c)) := by
  rw [networkPath]
  rcases hex : c.execResult with _ | resp
  · simp [headerPresent, hex]
  · dsimp only
    by_cases hch : checked = true
    · rw [if_pos hch]
      obtain ⟨h1, h2⟩ := afterVersionCheck_flags c resp true false
      rw [h1, h2, hch]
      simp
    · have hch' : checked = false := by simpa using hch
      rw [if_neg hch]
      by_cases hhdr : resp.XAPIVersion ≠ ""
      · rw [if_pos hhdr]
        rcases hcv : CheckAPIVersionCompatibility resp.XAPIVersion with ⟨o, w⟩
        have ho : o = none := by
          have h := checkAPIVersionCompatibility_fst resp.XAPIVersion
          rw [hcv] at h
          exact h
        subst ho
        dsimp only
        obtain ⟨h1, h2⟩ := afterVersionCheck_flags c resp true true
        rw [h1, h2, hch']
        simp [headerPresent, hex, hhdr]
      · rw [if_neg hhdr]
        obtain ⟨h1, h2⟩ := afterVersionCheck_flags c resp true false
        rw [h1, h2, hch']
        have : resp.XAPIVersion = "" := by simpa using hhdr
        simp [headerPresent, hex, this]

lemma requestWithOptions_flag (checked : Bool) (c : CallIn V B) :
    (requestWithOptions checked c).checked' = (checked || reachedVC c) ∧
    (requestWithOptions checked c).ranCheck =
      (!checked && (reachedVC c && headerPresent c)) := by
  rw [requestWithOptions]
  by_cases hcond : c.method = "GET" ∧ c.cacheOn ∧ ¬c.skipCache
  · rw [if_pos hcond]
    rcases hcached : c.cached with _ | entry
    · have hrv : reachedVC c = c.execResult.isSome := by
        rw [reachedVC]
        simp [hcached]
      obtain ⟨h1, h2⟩ := networkPath_flag checked c
      exact ⟨by rw [h1, hrv], by rw [h2, hrv]⟩
    · dsimp only
      rcases hmar : c.marshal entry.Value with _ | data
      · have hrv : reachedVC c = c.execResult.isSome := by
          rw [reachedVC]
          simp [hcached, hmar]
        obtain ⟨h1, h2⟩ := networkPath_flag checked c
        exact ⟨by rw [h1, hrv], by rw [h2, hrv]⟩
      · have hrv : reachedVC c = false := by
          rw [reachedVC]
          simp [hcached, hmar, hcond]
        rcases hunm : c.unmarshal data with _ | v <;> simp [hrv, hunm]
  · rw [if_neg hcond]
    have hrv : reachedVC c = c.execResult.isSome := by
      rw [reachedVC]
      have hdec : (decide (c.method = "GET" ∧ c.cacheOn ∧ ¬c.skipCache)) = false := by
        simp only [decide_eq_false_iff_not]
        exact hcond
      rw [hdec]
      simp
    obtain ⟨h1, h2⟩ := networkPath_flag checked c
    exact ⟨by rw [h1, hrv], by rw [h2, hrv]⟩

lemma runCalls_all_checked (cs : List (CallIn V B)) :
    runCalls true cs = (true, cs.map fun _ => false) := by
  induction cs with
  | nil => rfl
  | cons c rest ih =>
    have h1 : (requestWithOptions true c).checked' = true := by
      rw [(requestWithOptions_flag true c).1]
      simp
    have h2 : (requestWithOptions true c).ranCheck = false := by
      rw [(requestWithOptions_flag true c).2]
      simp
    simp only [runCalls, h1, h2, ih, List.map_cons]

lemma runCalls_append (l₁ l₂ : List (CallIn V B)) (b : Bool) :
    runCalls b (l₁ ++ l₂) =
      ((runCalls (runCalls b l₁).1 l₂).1,
        (runCalls b l₁).2 ++ (runCalls (runCalls b l₁).1 l₂).2) := by
  induction l₁ generalizing b with
  | nil => simp [runCalls]
  | cons c rest ih =>
    simp only [List.cons_append, runCalls, List.append_eq, ih, List.nil_append]

/-- C3: across any sequence of calls starting from a fresh client, the
compatibility check runs at most once; when it runs at call `i`, that call is
the first one to reach the version-check section with a response in hand and
its response carries a version header; and the `apiVersionChecked` flag never
returns to false once set (a prefix that sets it forces it set at the end).
With the shipped constants the check never fails, so the first call reaching
the section always latches the flag. -/
theorem C3_version_check_once (calls : List (CallIn V B)) :
    ((runCalls false calls).2.count true ≤ 1) ∧
    (∀ (i : Nat) (ci : CallIn V B), calls[i]? = some ci →
      (runCalls false calls).2[i]? = some true →
      reachedVC ci = true ∧ headerPresent ci = true ∧
      ∀ (j : Nat) (cj : CallIn V B), j < i → calls[j]? = some cj →
        reachedVC cj = false) ∧
    (∀ pre suf, calls = pre ++ suf → (runCalls (V := V) (B := B) false pre).1 = true →
      (runCalls false calls).1 = true) := by
  refine ⟨?_, ?_, ?_⟩
  · induction calls with
    | nil => simp [runCalls]
    | cons c rest ih =>
      by_cases hr : reachedVC c = true
      · have h1 : (requestWithOptions false c).checked' = true := by
          rw [(requestWithOptions_flag false c).1, hr]
          simp
        have hzero : ((rest.map fun _ => false).count true) = 0 := by
          simp [List.count_eq_zero]
        simp only [runCalls, h1, runCalls_all_checked]
        cases hrc : (requestWithOptions false c).ranCheck <;>
          simp [List.count_cons, List.count_replicate, hzero]
      · have hrf : reachedVC c = false := by simpa using hr
        have h1 : (requestWithOptions false c).checked' = false := by
          rw [(requestWithOptions_flag false c).1, hrf]
          simp
        have h2 : (requestWithOptions false c).ranCheck = false := by
          rw [(requestWithOptions_flag false c).2, hrf]
          simp
        simp only [runCalls, h1, h2]
        simpa [List.count_cons] using ih
  · induction calls with
    | nil =>
      intro i ci h
      simp at h
    | cons c rest ih =>
      intro i ci hci hran
      cases i with
      | zero =>
        simp only [List.getElem?_cons_zero, Option.some.injEq] at hci
        simp only [runCalls, List.getElem?_cons_zero, Option.some.injEq] at hran
        rw [(requestWithOptions_flag false c).2] at hran
        simp only [Bool.not_false, Bool.true_and] at hran
        rw [Bool.and_eq_true] at hran
        obtain ⟨ha, hb⟩ := hran
        subst hci
        exact ⟨ha, hb, fun j cj hj _ => absurd hj (by omega)⟩
      | succ i' =>
        simp only [List.getElem?_cons_succ] at hci
        simp only [runCalls, List.getElem?_cons_succ] at hran
        by_cases hr : reachedVC c = true
        · exfalso
          have h1 : (requestWithOptions false c).checked' = true := by
            rw [(requestWithOptions_flag false c).1, hr]
            simp
          rw [h1, runCalls_all_checked] at hran
          simp only [List.getElem?_map, hci, Option.map_some] at hran
          exact absurd hran (by simp)
        · have hrf : reachedVC c = false := by simpa using hr
          have h1 : (requestWithOptions false c).checked' = false := by
            rw [(requestWithOptions_flag false c).1, hrf]
            simp
          rw [h1] at hran
          obtain ⟨ha, hb, hc⟩ := ih i' ci hci hran
          refine ⟨ha, hb, ?_⟩
          intro j cj hj hcj
          cases j with
          | zero =>
            simp only [List.getElem?_cons_zero, Option.some.injEq] at hcj
            subst hcj
            exact hrf
          | succ j' =>
            simp only [List.getElem?_cons_succ] at hcj
            exact hc j' cj (by omega) hcj
  · intro pre suf hsplit hpre
    subst hsplit
    rw [runCalls_append, hpre, runCalls_all_checked]

/-! ### C1: the retry loop -/

lemma int64_eq_self (x : Int) (h1 : -(2 ^ 63) ≤ x) (h2 : x < 2 ^ 63) : int64 x = x := by
  rw [int64]
  omega

/-- Full characterization of `executeWithRetry` from an arbitrary 1-based
starting attempt: writing `n` for the number of sleeps performed, the
attempts made are `a, …, a + n`; every non-final attempt both triggered a
retry and was within the retry budget, each sleep is `attemptWaitNs` of the
corresponding attempt, the returned outcome is that of the final attempt, and
the loop stopped either because the final outcome is not a trigger or because
the budget ran out. -/
lemma executeWithRetry_spec (m : Int) (t : Transport) :
    ∀ a : Nat, 1 ≤ a →
      ((executeWithRetry m t a).2.length = 0 ∨
        ((a : Int) + (executeWithRetry m t a).2.length ≤ m + 1)) ∧
      (∀ i : Nat, a ≤ i → i < a + (executeWithRetry m t a).2.length →
        isRetryTrigger (t i) = true ∧ (i : Int) ≤ m) ∧
      (∀ i : Nat, a ≤ i → i < a + (executeWithRetry m t a).2.length →
        (executeWithRetry m t a).2[i - a]? = some (attemptWaitNs (t i) i)) ∧
      ((executeWithRetry m t a).1 = t (a + (executeWithRetry m t a).2.length)) ∧
      (isRetryTrigger (t (a + (executeWithRetry m t a).2.length)) = false ∨
        ¬((a : Int) + (executeWithRetry m t a).2.length ≤ m)) := by
  suffices H : ∀ (fuel : Nat) (a : Nat), (m + 1 - a).toNat = fuel → 1 ≤ a →
      ((executeWithRetry m t a).2.length = 0 ∨
        ((a : Int) + (executeWithRetry m t a).2.length ≤ m + 1)) ∧
      (∀ i : Nat, a ≤ i → i < a + (executeWithRetry m t a).2.length →
        isRetryTrigger (t i) = true ∧ (i : Int) ≤ m) ∧
      (∀ i : Nat, a ≤ i → i < a + (executeWithRetry m t a).2.length →
        (executeWithRetry m t a).2[i - a]? = some (attemptWaitNs (t i) i)) ∧
      ((executeWithRetry m t a).1 = t (a + (executeWithRetry m t a).2.length)) ∧
      (isRetryTrigger (t (a + (executeWithRetry m t a).2.length)) = false ∨
        ¬((a : Int) + (executeWithRetry m t a).2.length ≤ m)) by
    intro a ha
    exact H _ a rfl ha
  intro fuel
  induction fuel using Nat.strong_induction_on with
  | _ fuel ih =>
    intro a hfuel ha
    rcases ht : t a with _ | resp
    · -- network error on attempt a
      by_cases hle : (a : Int) ≤ m
      · have hunf : executeWithRetry m t a =
            ((executeWithRetry m t (a + 1)).1,
              backoffNs a :: (executeWithRetry m t (a + 1)).2) := by
          rw [executeWithRetry, ht, dif_pos hle]
        obtain ⟨ih1, ih2, ih3, ih4, ih5⟩ :=
          ih ((m + 1 - (a + 1)).toNat) (by omega) (a + 1) rfl (by omega)
        rw [hunf]
        dsimp only
        refine ⟨?_, ?_, ?_, ?_, ?_⟩
        · right
          simp only [List.length_cons]
          rcases ih1 with h0 | hb
          · rw [h0]
            push_cast
            omega
          · push_cast at hb ⊢
            omega
        · intro i hai hilt
          by_cases hia : i = a
          · subst hia
            exact ⟨by rw [ht]; rfl, hle⟩
          · exact ih2 i (by omega) (by simp only [List.length_cons] at hilt; omega)
        · intro i hai hilt
          by_cases hia : i = a
          · subst hia
            simp only [Nat.sub_self, List.getElem?_cons_zero, ht, attemptWaitNs]
          · have hsub : i - a = (i - (a + 1)) + 1 := by omega
            rw [hsub, List.getElem?_cons_succ]
            exact ih3 i (by omega) (by simp only [List.length_cons] at hilt; omega)
        · rw [ih4]
          congr 1
          simp only [List.length_cons]
          omega
        · have hidx : a + ((executeWithRetry m t (a + 1)).2.length + 1) =
              (a + 1) + (executeWithRetry m t (a + 1)).2.length := by omega
          simp only [List.length_cons, hidx]
          rcases ih5 with h | h
          · exact Or.inl h
          · right
            push_cast at h ⊢
            omega
      · have hunf : executeWithRetry m t a = (none, []) := by
          rw [executeWithRetry, ht, dif_neg hle]
        rw [hunf]
        dsimp only
        simp only [List.length_nil, Nat.add_zero]
        refine ⟨Or.inl (by simp), ?_, ?_, ?_, ?_⟩
        · intro i hai hilt
          omega
        · intro i hai hilt
          omega
        · rw [ht]
        · right
          push_cast
          omega
    · -- attempt a received a response
      by_cases h429 : resp.StatusCode = 429 ∧ (a : Int) ≤ m
      · have hunf : executeWithRetry m t a =
            ((executeWithRetry m t (a + 1)).1,
              int64 (parseRetryAfterSeconds resp.RetryAfterHeader * secondNs) ::
                (executeWithRetry m t (a + 1)).2) := by
          rw [executeWithRetry, ht]
          dsimp only
          rw [dif_pos h429]
        obtain ⟨ih1, ih2, ih3, ih4, ih5⟩ :=
          ih ((m + 1 - (a + 1)).toNat) (by omega) (a + 1) rfl (by omega)
        rw [hunf]
        dsimp only
        refine ⟨?_, ?_, ?_, ?_, ?_⟩
        · right
          simp only [List.length_cons]
          rcases ih1 with h0 | hb
          · rw [h0]
            push_cast
            omega
          · push_cast at hb ⊢
            omega
        · intro i hai hilt
          by_cases hia : i = a
          · subst hia
            refine ⟨?_, h429.2⟩
            rw [ht]
            simp [isRetryTrigger, h429.1]
          · exact ih2 i (by omega) (by simp only [List.length_cons] at hilt; omega)
        · intro i hai hilt
          by_cases hia : i = a
          · subst hia
            simp only [Nat.sub_self, List.getElem?_cons_zero, ht, attemptWaitNs,
              if_pos h429.1]
          · have hsub : i - a = (i - (a + 1)) + 1 := by omega
            rw [hsub, List.getElem?_cons_succ]
            exact ih3 i (by omega) (by simp only [List.length_cons] at hilt; omega)
        · rw [ih4]
          congr 1
          simp only [List.length_cons]
          omega
        · have hidx : a + ((executeWithRetry m t (a + 1)).2.length + 1) =
              (a + 1) + (executeWithRetry m t (a + 1)).2.length := by omega
          simp only [List.length_cons, hidx]
          rcases ih5 with h | h
          · exact Or.inl h
          · right
            push_cast at h ⊢
            omega
      · by_cases h500 : 500 ≤ resp.StatusCode ∧ (a : Int) ≤ m
        · have hunf : executeWithRetry m t a =
              ((executeWithRetry m t (a + 1)).1,
                backoffNs a :: (executeWithRetry m t (a + 1)).2) := by
            rw [executeWithRetry, ht]
            dsimp only
            rw [dif_neg h429, dif_pos h500]
          obtain ⟨ih1, ih2, ih3, ih4, ih5⟩ :=
            ih ((m + 1 - (a + 1)).toNat) (by omega) (a + 1) rfl (by omega)
          have hne : resp.StatusCode ≠ 429 := by omega
          rw [hunf]
          dsimp only
          refine ⟨?_, ?_, ?_, ?_, ?_⟩
          · right
            simp only [List.length_cons]
            rcases ih1 with h0 | hb
            · rw [h0]
              push_cast
              omega
            · push_cast at hb ⊢
              omega
          · intro i hai hilt
            by_cases hia : i = a
            · subst hia
              refine ⟨?_, h500.2⟩
              rw [ht]
              simp [isRetryTrigger, h500.1]
            · exact ih2 i (by omega) (by simp only [List.length_cons] at hilt; omega)
          · intro i hai hilt
            by_cases hia : i = a
            · subst hia
              simp only [Nat.sub_self, List.getElem?_cons_zero, ht, attemptWaitNs,
                if_neg hne]
            · have hsub : i - a = (i - (a + 1)) + 1 := by omega
              rw [hsub, List.getElem?_cons_succ]
              exact ih3 i (by omega) (by simp only [List.length_cons] at hilt; omega)
          · rw [ih4]
            congr 1
            simp only [List.length_cons]
            omega
          · have hidx : a + ((executeWithRetry m t (a + 1)).2.length + 1) =
                (a + 1) + (executeWithRetry m t (a + 1)).2.length := by omega
            simp only [List.length_cons, hidx]
            rcases ih5 with h | h
            · exact Or.inl h
            · right
              push_cast at h ⊢
              omega
        · have hunf : executeWithRetry m t a = (some resp, []) := by
            rw [executeWithRetry, ht]
            dsimp only
            rw [dif_neg h429, dif_neg h500]
          rw [hunf]
          dsimp only
          simp only [List.length_nil, Nat.add_zero]
          refine ⟨Or.inl (by simp), ?_, ?_, ?_, ?_⟩
          · intro i hai hilt
            omega
          · intro i hai hilt
            omega
          · rw [ht]
          · rw [ht]
            by_cases hst : resp.StatusCode = 429
            · right
              push_cast
              exact fun hc => h429 ⟨hst, hc⟩
            · by_cases h5 : 500 ≤ resp.StatusCode
              · right
                push_cast
                exact fun hc => h500 ⟨h5, hc⟩
              · left
                simp [isRetryTrigger, hst, h5]

/-- C1 (amended): starting from attempt 1 with `maxRetries = m ≥ 0` and
writing `n` for the number of sleeps, the loop makes `n + 1 ≤ m + 1`
attempts; it retries exactly on a transport error, a 429, or a status ≥ 500
(every non-final attempt is a trigger, and the final attempt is either not a
trigger or the budget is exhausted); the final outcome is that of the last
attempt; each sleep is the as-computed duration `attemptWaitNs`; and that
duration agrees with the claim's values — `min(2^(attempt-1), 30)` seconds
for the backoff and the verbatim parsed Retry-After (1 second when absent or
non-numeric) — whenever `attempt ≤ 34` and the parsed value is at most
9 223 372 036 seconds in magnitude; beyond those bounds the int64 nanosecond
conversion wraps. -/
theorem C1_retry_loop (m : Int) (t : Transport) (hm : 0 ≤ m) :
    (((executeWithRetry m t 1).2.length : Int) + 1 ≤ m + 1) ∧
    (∀ i : Nat, 1 ≤ i → i ≤ (executeWithRetry m t 1).2.length →
      isRetryTrigger (t i) = true) ∧
    (isRetryTrigger (t ((executeWithRetry m t 1).2.length + 1)) = false ∨
      ((executeWithRetry m t 1).2.length : Int) = m) ∧
    ((executeWithRetry m t 1).1 = t ((executeWithRetry m t 1).2.length + 1)) ∧
    (∀ i : Nat, 1 ≤ i → i ≤ (executeWithRetry m t 1).2.length →
      (executeWithRetry m t 1).2[i - 1]? = some (attemptWaitNs (t i) i)) ∧
    (∀ i : Nat, 1 ≤ i → i ≤ 34 → backoffNs i = min (2 ^ (i - 1)) 30 * secondNs) ∧
    (∀ ra : String, ra = "" ∨ goAtoi ra = none →
      int64 (parseRetryAfterSeconds ra * secondNs) = 1 * secondNs) ∧
    (∀ (ra : String) (v : Int), goAtoi ra = some v → v.natAbs ≤ 9223372036 →
      int64 (parseRetryAfterSeconds ra * secondNs) = v * secondNs) := by
  obtain ⟨s1, s2, s3, s4, s5⟩ := executeWithRetry_spec m t 1 le_rfl
  refine ⟨?_, ?_, ?_, ?_, ?_, ?_, ?_, ?_⟩
  · rcases s1 with h0 | hb
    · rw [h0]
      omega
    · push_cast at hb ⊢
      omega
  · intro i h1 h2
    exact (s2 i h1 (by omega)).1
  · have hn1 : (executeWithRetry m t 1).2.length + 1 =
        1 + (executeWithRetry m t 1).2.length := by omega
    rw [hn1]
    rcases s5 with h | h
    · exact Or.inl h
    · right
      rcases s1 with h0 | hb
      · rw [h0] at h ⊢
        push_cast at h ⊢
        omega
      · push_cast at h hb ⊢
        omega
  · have hn1 : (executeWithRetry m t 1).2.length + 1 =
        1 + (executeWithRetry m t 1).2.length := by omega
    rw [hn1]
    exact s4
  · intro i h1 h2
    exact s3 i h1 (by omega)
  · intro i h1 h2
    interval_cases i <;> decide
  · intro ra hra
    have hp : parseRetryAfterSeconds ra = 1 := by
      rcases hra with h | h
      · rw [parseRetryAfterSeconds, if_pos h]
      · by_cases he : ra = ""
        · rw [parseRetryAfterSeconds, if_pos he]
        · rw [parseRetryAfterSeconds, if_neg he, h]
    rw [hp]
    decide
  · intro ra v hv hbound
    have hne : ra ≠ "" := by
      intro he
      rw [he] at hv
      exact Option.noConfusion hv
    have hp : parseRetryAfterSeconds ra = v := by
      rw [parseRetryAfterSeconds, if_neg hne, hv]
    rw [hp, secondNs, int64_eq_self] <;> omega

/-- C1 is false as stated: with `Retry-After: 10000000000` on a 429, the
parsed value is 10 000 000 000 seconds, but the duration slept before the
next attempt is the int64-wrapped `-8446744073709551616` nanoseconds (a
negative sleep returns immediately), not the parsed value. -/
theorem C1_retry_loop_counterexample :
    executeWithRetry 3 t429over 1 =
      (some { StatusCode := 200, RetryAfterHeader := "" }, [-8446744073709551616]) ∧
    parseRetryAfterSeconds "10000000000" = 10000000000 ∧
    (-8446744073709551616 : Int) ≠ 10000000000 * secondNs := by
  have hw : int64 (parseRetryAfterSeconds "10000000000" * secondNs) =
      -8446744073709551616 := by decide
  have h2 : executeWithRetry 3 t429over 2 =
      (some { StatusCode := 200, RetryAfterHeader := "" }, []) := by
    rw [executeWithRetry]
    simp [t429over]
  have h1 : executeWithRetry 3 t429over 1 =
      (some { StatusCode := 200, RetryAfterHeader := "" }, [-8446744073709551616]) := by
    rw [executeWithRetry]
    simp [t429over, hw, h2]
  exact ⟨h1, by decide, by decide⟩

/-- Witness for C1 at `maxRetries = 3` against a transport that serves a 500
then a 200. -/
theorem C1_retry_loop_witness :
    (0 : Int) ≤ 3 ∧
    ((((executeWithRetry 3 t500once 1).2.length : Int) + 1 ≤ 3 + 1) ∧
    (∀ i : Nat, 1 ≤ i → i ≤ (executeWithRetry 3 t500once 1).2.length →
      isRetryTrigger (t500once i) = true) ∧
    (isRetryTrigger (t500once ((executeWithRetry 3 t500once 1).2.length + 1)) = false ∨
      ((executeWithRetry 3 t500once 1).2.length : Int) = 3) ∧
    ((executeWithRetry 3 t500once 1).1 =
      t500once ((executeWithRetry 3 t500once 1).2.length + 1)) ∧
    (∀ i : Nat, 1 ≤ i → i ≤ (executeWithRetry 3 t500once 1).2.length →
      (executeWithRetry 3 t500once 1).2[i - 1]? =
        some (attemptWaitNs (t500once i) i)) ∧
    (∀ i : Nat, 1 ≤ i → i ≤ 34 → backoffNs i = min (2 ^ (i - 1)) 30 * secondNs) ∧
    (∀ ra : String, ra = "" ∨ goAtoi ra = none →
      int64 (parseRetryAfterSeconds ra * secondNs) = 1 * secondNs) ∧
    (∀ (ra : String) (v : Int), goAtoi ra = some v → v.natAbs ≤ 9223372036 →
      int64 (parseRetryAfterSeconds ra * secondNs) = v * secondNs)) :=
  ⟨by decide, C1_retry_loop 3 t500once (by decide)⟩

/-- Witness for C3 at two identical calls that both receive responses with a
version header: the check runs on the first call only. -/
theorem C3_version_check_once_witness :
    (runCalls false [c3call, c3call]).2 = [true, false] ∧
    (((runCalls false [c3call, c3call]).2.count true ≤ 1) ∧
      (∀ (i : Nat) (ci : CallIn Unit Unit), [c3call, c3call][i]? = some ci →
        (runCalls false [c3call, c3call]).2[i]? = some true →
        reachedVC ci = true ∧ headerPresent ci = true ∧
        ∀ (j : Nat) (cj : CallIn Unit Unit), j < i → [c3call, c3call][j]? = some cj →
          reachedVC cj = false) ∧
      (∀ pre suf, [c3call, c3call] = pre ++ suf →
        (runCalls (V := Unit) (B := Unit) false pre).1 = true →
        (runCalls false [c3call, c3call]).1 = true)) :=
  ⟨by decide, C3_version_check_once [c3call, c3call]⟩

end Refyne
